import Mathlib

set_option maxHeartbeats 2000000
set_option maxRecDepth 4000

/-!
Verification of the receipt-parsing core of `grab_receipts_exporter`
(`src/grab_receipts_exporter/cli.py`), shallowly embedded over `List Char`.
Python strings are `String`/`List Char`; Python `float` values produced by
decimal-string conversion are modelled as exact rationals (`ℚ`); fallible
code returns `Option`/`Except`.  Regular-expression calls are embedded
per pattern: boolean `re.search` tests become substring scanners, and
capture-group searches are run through a small backtracking matcher that
mirrors the leftmost-match, greedy/lazy priorities of Python `re`.
-/

namespace GrabReceipts

/-- `hay` starts with `needle` (first argument is the haystack). -/
def startsWithL : List Char → List Char → Bool
  | _, [] => true
  | [], _ :: _ => false
  | c :: t, d :: u => c = d && startsWithL t u

/-- `needle` occurs somewhere in `hay` (models Python `needle in hay` and
truthiness of `re.search` on a literal pattern). -/
def containsSub : List Char → List Char → Bool
  | [], needle => startsWithL [] needle
  | c :: t, needle => startsWithL (c :: t) needle || containsSub t needle

/-- ASCII lowercasing used for `re.IGNORECASE` literals (all case-carrying
characters in the embedded patterns are ASCII; Thai has no case). -/
def lowerCh (c : Char) : Char := c.toLower

/-- Case-insensitive `startsWithL`. -/
def startsWithCI : List Char → List Char → Bool
  | _, [] => true
  | [], _ :: _ => false
  | c :: t, d :: u => lowerCh c = lowerCh d && startsWithCI t u

/-- The whitespace class of Python `re` `\s` on `str` patterns
(ASCII whitespace, the C1 separators, and the Unicode space characters). -/
def pyIsSpace (c : Char) : Bool :=
  c = ' ' || c = '\t' || c = '\n' || c = '\r' || c = '\x0b' || c = '\x0c' ||
  c = '\x1c' || c = '\x1d' || c = '\x1e' || c = '\x1f' || c = '\x85' || c = '\xa0' ||
  c = '\u1680' || (8192 ≤ c.toNat && c.toNat ≤ 8202) ||
  c = '\u2028' || c = '\u2029' || c = '\u202f' || c = '\u205f' || c = '\u3000'

/-- The `[\d,]` character class of the amount patterns (`\d` modelled as the
ASCII digits, which is what appears in the receipts; Python would also accept
other Unicode decimal digits). -/
def isDigitComma (c : Char) : Bool := c.isDigit || c = ','

/-- The `[\d.]` character class of the transport distance pattern. -/
def isDigitDot (c : Char) : Bool := c.isDigit || c = '.'

/-- The `[A-Z0-9]` class of the order-id pattern. -/
def isUpperAlnum (c : Char) : Bool :=
  (decide ('A' ≤ c) && decide (c ≤ 'Z')) || c.isDigit

/-- Numeric value of a digit string (most significant first). -/
def natOfDigits (l : List Char) : ℕ :=
  l.foldl (fun a c => a * 10 + (c.toNat - 48)) 0

/-- Models Python `float()` on the strings reachable from the extractors:
after comma stripping every argument consists of ASCII digits and dots, and
`float` accepts exactly `digits* ['.' digits*]` with at least one digit
(`""`, `"."`, `"1.2.3"` raise `ValueError`).  The result is the exact
decimal value as a rational. -/
def decimalOfChars (l : List Char) : Option ℚ :=
  let ip := l.takeWhile Char.isDigit
  let rest := l.dropWhile Char.isDigit
  match rest with
  | [] => if ip.isEmpty then none else some ((natOfDigits ip : ℕ) : ℚ)
  | p :: fr =>
      if p = '.' && fr.all Char.isDigit && !(ip.isEmpty && fr.isEmpty) then
        some (((natOfDigits ip * 10 ^ fr.length + natOfDigits fr : ℕ) : ℚ) /
          ((10 : ℚ) ^ fr.length))
      else none

/-- Models `val.replace(",", "")`. -/
def stripCommas (l : List Char) : List Char := l.filter (fun c => !(c = ','))

/-- `parse_amount` (cli.py:109): strip commas, convert to float, `None` on
failure. -/
def parse_amount (val : String) : Option ℚ := decimalOfChars (stripCommas val.data)

/-! ### Service classifier (cli.py:252, `detect_service_type`)

Each `re.search` used by the classifier is consulted only for truthiness, so
it is embedded as a boolean scanner equivalent to the corresponding pattern
matching somewhere in the text. -/

/-- Truthiness of `re.search(r"Tips E-Receipt|ทิปเพื่อเป็นกำลังใจ|Grab Tips E-Receipt", body)`:
an alternation of literals matches iff one of them is a substring. -/
def tipMarkerCheck (l : List Char) : Bool :=
  containsSub l "Tips E-Receipt".data ||
  containsSub l "ทิปเพื่อเป็นกำลังใจ".data ||
  containsSub l "Grab Tips E-Receipt".data

/-- The `.*?\.amazonaws\.com` tail of the transport marker: scan non-newline
characters (no `re.DOTALL` on this pattern) for the literal. -/
def myteksiAfter : List Char → Bool
  | [] => false
  | c :: t => startsWithL (c :: t) ".amazonaws.com".data || (!(c = '\n') && myteksiAfter t)

/-- Truthiness of `re.search(r"myteksi\.s3.*?\.amazonaws\.com", body)`. -/
def myteksiCheck : List Char → Bool
  | [] => false
  | c :: t =>
      (startsWithL (c :: t) "myteksi.s3".data && myteksiAfter ((c :: t).drop 10)) ||
      myteksiCheck t

/-- `orderID%3D00\d{9}` matching at this position. -/
def orderIdMarkerAt (l : List Char) : Bool :=
  startsWithL l "orderID%3D00".data &&
  ((l.drop 12).take 9).length = 9 && ((l.drop 12).take 9).all Char.isDigit

/-- Truthiness of `re.search(r"ratingStar%3D|orderID%3D00\d{9}", body)`. -/
def secondaryFoodCheck : List Char → Bool
  | [] => false
  | c :: t => startsWithL (c :: t) "ratingStar%3D".data || orderIdMarkerAt (c :: t) ||
      secondaryFoodCheck t

/-- `.{0,5}` followed by `p`: `p` holds after at most `k` non-newline
characters. -/
def gapThen (k : ℕ) (p : List Char → Bool) (l : List Char) : Bool :=
  p l ||
  (match k, l with
   | 0, _ => false
   | _, [] => false
   | k' + 1, c :: t => !(c = '\n') && gapThen k' p t)

/-- `\s+location` (case-insensitive tail). -/
def wsThenLocation (l : List Char) : Bool :=
  match l with
  | [] => false
  | c :: t => pyIsSpace c && startsWithCI (t.dropWhile pyIsSpace) "location".data

/-- `(?i)pick.{0,5}up\s+location` at this position. -/
def pickupBranchAt (l : List Char) : Bool :=
  startsWithCI l "pick".data &&
  gapThen 5 (fun r => startsWithCI r "up".data && wsThenLocation (r.drop 2)) (l.drop 4)

/-- `(?i)drop.{0,5}off\s+location` at this position. -/
def dropoffBranchAt (l : List Char) : Bool :=
  startsWithCI l "drop".data &&
  gapThen 5 (fun r => startsWithCI r "off".data && wsThenLocation (r.drop 3)) (l.drop 4)

/-- Truthiness of the secondary transport marker search. -/
def secondaryTransportCheck : List Char → Bool
  | [] => false
  | c :: t => pickupBranchAt (c :: t) || dropoffBranchAt (c :: t) ||
      secondaryTransportCheck t

/-- `detect_service_type` (cli.py:252): tiered markers, tip first. -/
def detect_service_type (body : String) : String :=
  if tipMarkerCheck body.data then "GrabTip"
  else if containsSub body.data "SOURCE_GRABFOOD".data then "GrabFood"
  else if myteksiCheck body.data then "GrabTransport"
  else if secondaryFoodCheck body.data then "GrabFood"
  else if secondaryTransportCheck body.data then "GrabTransport"
  else "Unknown"

/-! ### Total amount (cli.py:61, `extract_total_amount`)

The three patterns are deterministic at a given start position (the character
classes of adjacent pieces are disjoint, so Python's backtracking never
produces a different split), and `re.search` takes the leftmost matching
position; each embedded searcher scans positions left to right and applies
the unique possible split at each. -/

/-- `฿\s*([\d,]+(?:\.\d{2})?)` at this position; returns group 1. -/
def amountPat1At (l : List Char) : Option (List Char) :=
  match l with
  | [] => none
  | c :: t =>
      if c = '฿' then
        let r := t.dropWhile pyIsSpace
        let run := r.takeWhile isDigitComma
        if run.isEmpty then none
        else
          match r.drop run.length with
          | p :: a :: b :: _ =>
              if p = '.' && a.isDigit && b.isDigit then some (run ++ [p, a, b]) else some run
          | _ => some run
      else none

/-- `re.search` for pattern 1: leftmost position where it matches. -/
def searchPat1 : List Char → Option (List Char)
  | [] => none
  | c :: t =>
      match amountPat1At (c :: t) with
      | some g => some g
      | none => searchPat1 t

/-- `THB\s*([\d,]+\.\d{2})` at this position; returns group 1. -/
def amountPat2At (l : List Char) : Option (List Char) :=
  if startsWithL l "THB".data then
    let r := (l.drop 3).dropWhile pyIsSpace
    let run := r.takeWhile isDigitComma
    if run.isEmpty then none
    else
      match r.drop run.length with
      | p :: a :: b :: _ =>
          if p = '.' && a.isDigit && b.isDigit then some (run ++ [p, a, b]) else none
      | _ => none
  else none

/-- `re.search` for pattern 2. -/
def searchPat2 : List Char → Option (List Char)
  | [] => none
  | c :: t =>
      match amountPat2At (c :: t) with
      | some g => some g
      | none => searchPat2 t

/-- `([\d,]+\.\d{2})\s*THB` at this position; returns group 1. -/
def amountPat3At (l : List Char) : Option (List Char) :=
  let run := l.takeWhile isDigitComma
  if run.isEmpty then none
  else
    match l.drop run.length with
    | p :: a :: b :: rest =>
        if p = '.' && a.isDigit && b.isDigit &&
            startsWithL (rest.dropWhile pyIsSpace) "THB".data then
          some (run ++ [p, a, b])
        else none
    | _ => none

/-- `re.search` for pattern 3. -/
def searchPat3 : List Char → Option (List Char)
  | [] => none
  | c :: t =>
      match amountPat3At (c :: t) with
      | some g => some g
      | none => searchPat3 t

/-- `float(m.group(1).replace(",", ""))` of the loop body. -/
def convGroup (g : List Char) : Option ℚ := decimalOfChars (stripCommas g)

/-- The `for pat in patterns` loop: first pattern whose match converts wins;
a match whose conversion fails falls through to the next pattern (`pass`). -/
def tryAmountPatterns : List (List Char → Option (List Char)) → List Char → Option ℚ
  | [], _ => none
  | p :: ps, l =>
      match p l with
      | some g =>
          match convGroup g with
          | some v => some v
          | none => tryAmountPatterns ps l
      | none => tryAmountPatterns ps l

/-- `extract_total_amount` (cli.py:61). -/
def extract_total_amount (body : String) : Option ℚ :=
  tryAmountPatterns [searchPat1, searchPat2, searchPat3] body.data

/-! ### Order id (cli.py:88, `extract_order_id`) -/

/-- `A-[A-Z0-9]{10,}` matching at this position (greedy: the run is maximal);
returns group 0. -/
def orderIdAt (l : List Char) : Option (List Char) :=
  match l with
  | c1 :: c2 :: t =>
      if c1 = 'A' && c2 = '-' then
        let run := t.takeWhile isUpperAlnum
        if 10 ≤ run.length then some (c1 :: c2 :: run) else none
      else none
  | _ => none

/-- Leftmost match of the order-id pattern. -/
def searchOrderId : List Char → Option (List Char)
  | [] => none
  | c :: t =>
      match orderIdAt (c :: t) with
      | some r => some r
      | none => searchOrderId t

/-- `extract_order_id` (cli.py:88). -/
def extract_order_id (body : String) : Option String :=
  (searchOrderId body.data).map (fun l => ⟨l⟩)

/-! ### HTML stripping (cli.py:101, `strip_html`) -/

/-- Index of the first occurrence of `lit` (case-insensitive; any characters
before it, matching `.*?` under `re.DOTALL`). -/
def findLitCI (l lit : List Char) : Option ℕ :=
  match l with
  | [] => if startsWithCI [] lit then some 0 else none
  | c :: t =>
      if startsWithCI (c :: t) lit then some 0
      else (findLitCI t lit).map (· + 1)

/-- `<style[^>]*>.*?</style>` (DOTALL, IGNORECASE) at this position; returns
the number of characters consumed. -/
def styleBlockAt (l : List Char) : Option ℕ :=
  if startsWithCI l "<style".data then
    let r1 := l.drop 6
    let attrs := r1.takeWhile (fun c => !(c = '>'))
    match r1.drop attrs.length with
    | p :: r2 =>
        if p = '>' then
          (findLitCI r2 "</style>".data).map (fun j => 6 + attrs.length + 1 + j + 8)
        else none
    | [] => none
  else none

/-- `re.sub` of the style pattern with `""`: non-overlapping matches removed,
scanning left to right (fuel is the input length; each step consumes at least
one character). -/
def removeStyleGo : ℕ → List Char → List Char
  | 0, l => l
  | _ + 1, [] => []
  | fuel + 1, c :: t =>
      match styleBlockAt (c :: t) with
      | some k => removeStyleGo fuel ((c :: t).drop k)
      | none => c :: removeStyleGo fuel t

def removeStyle (l : List Char) : List Char := removeStyleGo l.length l

/-- `re.sub(r"<[^>]+>", " ", text)`. -/
def removeTagsGo : ℕ → List Char → List Char
  | 0, l => l
  | _ + 1, [] => []
  | fuel + 1, c :: t =>
      if c = '<' then
        let inner := t.takeWhile (fun d => !(d = '>'))
        if inner.isEmpty then c :: removeTagsGo fuel t
        else
          match t.drop inner.length with
          | p :: r =>
              if p = '>' then ' ' :: removeTagsGo fuel r else c :: removeTagsGo fuel t
          | [] => c :: removeTagsGo fuel t
      else c :: removeTagsGo fuel t

def removeTags (l : List Char) : List Char := removeTagsGo l.length l

/-- `re.sub(r"\s+", " ", text)`. -/
def collapseWsGo : ℕ → List Char → List Char
  | 0, l => l
  | _ + 1, [] => []
  | fuel + 1, c :: t =>
      if pyIsSpace c then ' ' :: collapseWsGo fuel (t.dropWhile pyIsSpace)
      else c :: collapseWsGo fuel t

def collapseWs (l : List Char) : List Char := collapseWsGo l.length l

def isValidCharNat (n : ℕ) : Bool := n < 55296 || (57344 ≤ n && n < 1114112)

/-- Models Python `html.unescape` restricted to the XML named entities and
decimal numeric character references (the full HTML named-entity table and
semicolon-less forms are not reproduced; no claim depends on them).
Returns the replacement character and the number of characters consumed. -/
def entityAt (l : List Char) : Option (Char × ℕ) :=
  if startsWithL l "&amp;".data then some ('&', 5)
  else if startsWithL l "&lt;".data then some ('<', 4)
  else if startsWithL l "&gt;".data then some ('>', 4)
  else if startsWithL l "&quot;".data then some ('"', 6)
  else if startsWithL l "&#".data then
    let ds := (l.drop 2).takeWhile Char.isDigit
    if !ds.isEmpty && ((l.drop (2 + ds.length)).head? == some ';') &&
        isValidCharNat (natOfDigits ds) then
      some (Char.ofNat (natOfDigits ds), ds.length + 3)
    else none
  else none

def unescapeGo : ℕ → List Char → List Char
  | 0, l => l
  | _ + 1, [] => []
  | fuel + 1, c :: t =>
      match entityAt (c :: t) with
      | some (r, k) => r :: unescapeGo fuel ((c :: t).drop k)
      | none => c :: unescapeGo fuel t

def unescapeL (l : List Char) : List Char := unescapeGo l.length l

/-- `strip_html` (cli.py:101): style blocks out first, then remaining tags
become one space each, whitespace runs collapse, entities unescape last. -/
def strip_html (html : String) : String :=
  ⟨unescapeL (collapseWs (removeTags (removeStyle html.data)))⟩

/-! ### A small backtracking regex matcher

The metadata extractors use richer patterns (lazy quantifiers, optional
capture groups, alternations).  They are run through a continuation-passing
matcher over an expression type that mirrors Python `re`'s backtracking
priorities: alternation tries the left branch first, a greedy quantifier
tries the longer match first, a lazy one the shorter.  Unbounded quantifiers
are expanded to a nesting depth of one more than the input length (their
bodies in every embedded pattern consume at least one character per
iteration, so this is exact). -/

inductive RExp where
  | lit : List Char → RExp
  | litCI : List Char → RExp
  | cls : (Char → Bool) → RExp
  | seq : RExp → RExp → RExp
  | alt : RExp → RExp → RExp
  | grp : ℕ → RExp → RExp
  | eos : RExp

abbrev Caps := List (ℕ × List Char)

/-- CPS matcher: match `re` at the head of `l`, then run the continuation on
the rest; `none` means this attempt fails and the caller backtracks. -/
def matchR : RExp → List Char → Caps →
    (List Char → Caps → Option (List Char × Caps)) → Option (List Char × Caps)
  | .lit s, l, caps, k => if startsWithL l s then k (l.drop s.length) caps else none
  | .litCI s, l, caps, k => if startsWithCI l s then k (l.drop s.length) caps else none
  | .cls p, l, caps, k =>
      match l with
      | [] => none
      | c :: t => if p c then k t caps else none
  | .seq r1 r2, l, caps, k => matchR r1 l caps (fun l2 c2 => matchR r2 l2 c2 k)
  | .alt r1 r2, l, caps, k =>
      match matchR r1 l caps k with
      | some res => some res
      | none => matchR r2 l caps k
  | .grp n r, l, caps, k =>
      matchR r l caps (fun l2 c2 => k l2 ((n, l.take (l.length - l2.length)) :: c2))
  | .eos, l, caps, k => if l.isEmpty || l = ['\n'] then k l caps else none

def eps : RExp := .lit []

/-- Greedy `?`. -/
def optG (r : RExp) : RExp := .alt r eps

/-- Lazy `??` (try the empty match first). -/
def optL (r : RExp) : RExp := .alt eps r

/-- Greedy `*`, expanded to at most `n` iterations. -/
def iterG : ℕ → RExp → RExp
  | 0, _ => eps
  | n + 1, r => optG (.seq r (iterG n r))

/-- Lazy `*?`, expanded to at most `n` iterations. -/
def iterL : ℕ → RExp → RExp
  | 0, _ => eps
  | n + 1, r => optL (.seq r (iterL n r))

/-- Greedy `+` (at most `n + 1` iterations). -/
def plusG (n : ℕ) (r : RExp) : RExp := .seq r (iterG n r)

/-- Lazy `+?`. -/
def plusL (n : ℕ) (r : RExp) : RExp := .seq r (iterL n r)

/-- `{k}`. -/
def repExact : ℕ → RExp → RExp
  | 0, _ => eps
  | n + 1, r => .seq r (repExact n r)

def rseq (l : List RExp) : RExp := l.foldr RExp.seq eps

/-- Left-priority alternation of a list of branches. -/
def alts : List RExp → RExp
  | [] => eps
  | [r] => r
  | r :: s :: rest => .alt r (alts (s :: rest))

def runMatch (re : RExp) (l : List Char) : Option (List Char × Caps) :=
  matchR re l [] (fun rest caps => some (rest, caps))

/-- `re.search`: leftmost matching position; returns
(matched span, captures, remainder after the match). -/
def searchFrom (re : RExp) : List Char → Option (List Char × Caps × List Char)
  | [] =>
      match runMatch re [] with
      | some (rest, caps) => some ([], caps, rest)
      | none => none
  | c :: t =>
      match runMatch re (c :: t) with
      | some (rest, caps) =>
          some ((c :: t).take ((c :: t).length - rest.length), caps, rest)
      | none => searchFrom re t

/-- `m.group(i)`: `none` when the group did not participate in the match. -/
def getCap (caps : Caps) (n : ℕ) : Option (List Char) :=
  (caps.find? (fun p => p.1 == n)).map (fun p => p.2)

/-- `re.findall`/`finditer`: non-overlapping matches, left to right (every
embedded pattern matches at least one character, so the resumption is exact). -/
def findallGo (re : RExp) : ℕ → List Char → List Caps
  | 0, _ => []
  | fuel + 1, l =>
      match searchFrom re l with
      | none => []
      | some (_, caps, rest) =>
          caps :: (if rest.length < l.length then findallGo re fuel rest else [])

def findallR (re : RExp) (l : List Char) : List Caps := findallGo re (l.length + 1) l

/-- Python `str.strip()` (no argument: strips whitespace on both ends). -/
def pyStrip (l : List Char) : List Char :=
  ((l.dropWhile pyIsSpace).reverse.dropWhile pyIsSpace).reverse

/-! ### Metadata values

Python dict values flowing into `metadata` are strings, floats, ints, or
`None` (from a failed `parse_amount`); dicts preserve insertion order and no
extractor assigns the same key twice, so a metadata dict is an ordered
association list. -/

inductive JVal where
  | str : String → JVal
  | num : ℚ → JVal
  | jint : ℤ → JVal
  | null : JVal
deriving DecidableEq, Repr

abbrev Meta := List (String × JVal)

inductive PyErr where
  | valueError
deriving DecidableEq, Repr

def digitCh (n : ℕ) : Char := Char.ofNat (48 + n)

def natDigitsAux : ℕ → ℕ → List Char
  | 0, _ => []
  | fuel + 1, n => if n < 10 then [digitCh n] else natDigitsAux fuel (n / 10) ++ [digitCh (n % 10)]

/-- Decimal digits of a natural number (Python `str` of an `int`). -/
def natDigits (n : ℕ) : List Char := natDigitsAux (n + 1) n

/-- Smallest exponent `k` with `q.den ∣ 10 ^ k` (searched up to `q.den`,
which suffices for every decimal rational); `0` if there is none. -/
def decExp (q : ℚ) : ℕ :=
  match (List.range (q.den + 1)).find? (fun k => decide (q.den ∣ 10 ^ k)) with
  | some k => k
  | none => 0

def padZeros (k : ℕ) (l : List Char) : List Char := List.replicate (k - l.length) '0' ++ l

/-- Models Python float `repr` on the nonnegative exact-decimal values
produced by the extractors: the shortest decimal form, with at least one
fractional digit (`80.0`, `17.18`). -/
def qRepr (q : ℚ) : List Char :=
  let k := decExp q
  let m := (q * (10 : ℚ) ^ k).num.toNat
  if k = 0 then natDigits m ++ ['.', '0']
  else natDigits (m / 10 ^ k) ++ '.' :: padZeros k (natDigits (m % 10 ^ k))

/-- Python `str` of an `Optional[float]` as it appears in an f-string. -/
def pyOptFloatRepr : Option ℚ → List Char
  | some q => qRepr q
  | none => "None".data

def jvalOfOptFloat : Option ℚ → JVal
  | some q => .num q
  | none => .null

/-! ### Pattern constants for the metadata extractors (cli.py:117-249) -/

def clsS : RExp := .cls pyIsSpace
def clsD : RExp := .cls Char.isDigit
def clsDC : RExp := .cls isDigitComma
def clsDDot : RExp := .cls isDigitDot
def dotAny : RExp := .cls (fun c => !(c = '\n'))
def clsColonS : RExp := .cls (fun c => c = ':' || pyIsSpace c)
def lits (s : String) : RExp := .lit s.data
def litsCI (s : String) : RExp := .litCI s.data

/-- `สถานที่เริ่มต้นการเดินทาง:\s*(.+?)\s*สถานที่ปลายทาง` (cli.py:126). -/
def reFoodRestaurant (n : ℕ) : RExp :=
  rseq [lits "สถานที่เริ่มต้นการเดินทาง:", iterG n clsS, .grp 1 (plusL n dotAny),
    iterG n clsS, lits "สถานที่ปลายทาง"]

/-- `สถานที่ปลายทาง:\s*(.+?)\s*โปรไฟล์` (cli.py:131). -/
def reFoodAddress (n : ℕ) : RExp :=
  rseq [lits "สถานที่ปลายทาง:", iterG n clsS, .grp 1 (plusL n dotAny),
    iterG n clsS, lits "โปรไฟล์"]

/-- `(\d+)x\s+(.+?)\s+฿\s*([\d,]+)` (cli.py:137). -/
def reFoodItem (n : ℕ) : RExp :=
  rseq [.grp 1 (plusG n clsD), lits "x", plusG n clsS, .grp 2 (plusL n dotAny),
    plusG n clsS, lits "฿", iterG n clsS, .grp 3 (plusG n clsDC)]

/-- `ค่าอาหาร\s+฿\s*([\d,]+)` (cli.py:146). -/
def reFoodSubtotal (n : ℕ) : RExp :=
  rseq [lits "ค่าอาหาร", plusG n clsS, lits "฿", iterG n clsS, .grp 1 (plusG n clsDC)]

/-- `ค่าจัดส่ง\s+฿\s*([\d,]+)` (cli.py:151). -/
def reFoodDelivery (n : ℕ) : RExp :=
  rseq [lits "ค่าจัดส่ง", plusG n clsS, lits "฿", iterG n clsS, .grp 1 (plusG n clsDC)]

/-- `(?:คำสั่งซื้อพิเศษ|Platform Fee|Small Order Fee)\s*\d*\s*฿\s*([\d,]+)` (cli.py:156). -/
def reFoodPlatform (n : ℕ) : RExp :=
  rseq [alts [lits "คำสั่งซื้อพิเศษ", lits "Platform Fee", lits "Small Order Fee"],
    iterG n clsS, iterG n clsD, iterG n clsS, lits "฿", iterG n clsS, .grp 1 (plusG n clsDC)]

/-- `(?:รูปแบบการชำระเงิน|Paid by|Payment)[:\s]*(MasterCard|Visa|Cash|GrabPay|เงินสด)\s*(\d{4})?`,
IGNORECASE (cli.py:161). -/
def reFoodPayment (n : ℕ) : RExp :=
  rseq [alts [litsCI "รูปแบบการชำระเงิน", litsCI "Paid by", litsCI "Payment"],
    iterG n clsColonS,
    .grp 1 (alts [litsCI "MasterCard", litsCI "Visa", litsCI "Cash", litsCI "GrabPay",
      litsCI "เงินสด"]),
    iterG n clsS, optG (.grp 2 (repExact 4 clsD))]

/-- `(GrabCar\s*Premium|Standard\s*\(JustGrab\)|JustGrab|GrabBike)`, IGNORECASE
(cli.py:179). -/
def reServiceClass (n : ℕ) : RExp :=
  .grp 1 (alts [rseq [litsCI "GrabCar", iterG n clsS, litsCI "Premium"],
    rseq [litsCI "Standard", iterG n clsS, litsCI "(JustGrab)"],
    litsCI "JustGrab", litsCI "GrabBike"])

/-- `([\d.]+)\s*km\s*[•·]\s*(\d+)\s*min` (cli.py:184). -/
def reDistance (n : ℕ) : RExp :=
  rseq [.grp 1 (plusG n clsDDot), iterG n clsS, lits "km", iterG n clsS,
    .cls (fun c => c = '•' || c = '·'), iterG n clsS, .grp 2 (plusG n clsD),
    iterG n clsS, lits "min"]

/-- `([^⋮]+?)\s+(\d{1,2}:\d{2}[AP]M)` (cli.py:191). -/
def reLocTime (n : ℕ) : RExp :=
  rseq [.grp 1 (plusL n (.cls (fun c => !(c = '⋮')))), plusG n clsS,
    .grp 2 (rseq [clsD, optG clsD, lits ":", repExact 2 clsD,
      .cls (fun c => c = 'A' || c = 'P'), lits "M"])]

/-- `(?:Fare|ค่าโดยสาร)\s+(?:฿\s*)?([\d,]+)` (cli.py:200). -/
def reFare (n : ℕ) : RExp :=
  rseq [alts [lits "Fare", lits "ค่าโดยสาร"], plusG n clsS,
    optG (rseq [lits "฿", iterG n clsS]), .grp 1 (plusG n clsDC)]

/-- `Toll\s+(?:฿\s*)?([\d,]+)`, IGNORECASE (cli.py:205). -/
def reToll (n : ℕ) : RExp :=
  rseq [litsCI "Toll", plusG n clsS, optG (rseq [lits "฿", iterG n clsS]),
    .grp 1 (plusG n clsDC)]

/-- `Platform Fee\s+(?:฿\s*)?([\d,]+)`, IGNORECASE (cli.py:210). -/
def rePlatformFee (n : ℕ) : RExp :=
  rseq [litsCI "Platform Fee", plusG n clsS, optG (rseq [lits "฿", iterG n clsS]),
    .grp 1 (plusG n clsDC)]

/-- `(?:Paid by|Payment)[:\s]*(?:.*?)(\d{4})\s*(?:฿|THB)`, IGNORECASE
(cli.py:215). -/
def rePayPrimary (n : ℕ) : RExp :=
  rseq [alts [litsCI "Paid by", litsCI "Payment"], iterG n clsColonS, iterL n dotAny,
    .grp 1 (repExact 4 clsD), iterG n clsS, alts [lits "฿", litsCI "THB"]]

/-- `(MasterCard|Visa|Cash|GrabPay)\s*(\d{4})?`, IGNORECASE (cli.py:219). -/
def rePayFallback (n : ℕ) : RExp :=
  rseq [.grp 1 (alts [litsCI "MasterCard", litsCI "Visa", litsCI "Cash", litsCI "GrabPay"]),
    iterG n clsS, optG (.grp 2 (repExact 4 clsD))]

/-- `(?:ชื่อผู้ขับ|Driver)[:\s]*(?:\(GB\))?\s*([^\n]+?)(?:\s*ชื่อผู้เดินทาง|$)` (cli.py:238). -/
def reTipDriver (n : ℕ) : RExp :=
  rseq [alts [lits "ชื่อผู้ขับ", lits "Driver"], iterG n clsColonS, optG (lits "(GB)"),
    iterG n clsS, .grp 1 (plusL n dotAny),
    alts [rseq [iterG n clsS, lits "ชื่อผู้เดินทาง"], .eos]]

/-- `(?:ชำระโดย|Paid by|Payment)[:\s]*(MasterCard|Visa|Cash|GrabPay)\s*(\d{4})?`,
IGNORECASE (cli.py:243). -/
def reTipPayment (n : ℕ) : RExp :=
  rseq [alts [litsCI "ชำระโดย", litsCI "Paid by", litsCI "Payment"], iterG n clsColonS,
    .grp 1 (alts [litsCI "MasterCard", litsCI "Visa", litsCI "Cash", litsCI "GrabPay"]),
    iterG n clsS, optG (.grp 2 (repExact 4 clsD))]

/-! ### The three metadata extractors -/

/-- An `if m: metadata[key] = m.group(1).strip()` clause. -/
def strClause (key : String) (re : RExp) (text : List Char) : Meta :=
  match searchFrom re text with
  | some (_, caps, _) =>
      match getCap caps 1 with
      | some g => [(key, JVal.str ⟨pyStrip g⟩)]
      | none => []
  | none => []

/-- An `if m: metadata[key] = parse_amount(m.group(1))` clause. -/
def numClause (key : String) (re : RExp) (text : List Char) : Meta :=
  match searchFrom re text with
  | some (_, caps, _) =>
      match getCap caps 1 with
      | some g => [(key, jvalOfOptFloat (decimalOfChars (stripCommas g)))]
      | none => []
  | none => []

/-- `f"{method} {last4}".strip()` from groups 1 and 2. -/
def paymentFromCaps (caps : Caps) : Meta :=
  match getCap caps 1 with
  | some method =>
      let last4 := (getCap caps 2).getD []
      [("payment_method", JVal.str ⟨pyStrip (method ++ ' ' :: last4)⟩)]
  | none => []

def vocabPaymentClause (re : RExp) (text : List Char) : Meta :=
  match searchFrom re text with
  | some (_, caps, _) => paymentFromCaps caps
  | none => []

/-- One line-item `f"{qty}x {name} @{price}"` from an item match. -/
def foodItemString (caps : Caps) : Option String :=
  match getCap caps 1, getCap caps 2, getCap caps 3 with
  | some g1, some g2, some g3 =>
      some ⟨natDigits (natOfDigits g1) ++ "x ".data ++ pyStrip g2 ++ " @".data ++
        pyOptFloatRepr (decimalOfChars (stripCommas g3))⟩
  | _, _, _ => none

def foodItemsClause (text : List Char) (n : ℕ) : Meta :=
  let items := (findallR (reFoodItem n) text).filterMap foodItemString
  if items.isEmpty then [] else [("items", JVal.str (String.intercalate "; " items))]

/-- `extract_food_metadata` (cli.py:117). -/
def extract_food_metadata (body : String) : Meta :=
  let text := (strip_html body).data
  let n := text.length + 1
  strClause "restaurant" (reFoodRestaurant n) text ++
  strClause "delivery_address" (reFoodAddress n) text ++
  foodItemsClause text n ++
  numClause "subtotal" (reFoodSubtotal n) text ++
  numClause "delivery_fee" (reFoodDelivery n) text ++
  numClause "platform_fee" (reFoodPlatform n) text ++
  vocabPaymentClause (reFoodPayment n) text

/-- The distance/duration clause of the transport extractor (cli.py:184-187):
`float(m.group(1))` is called directly (not through `parse_amount`), so a
match whose group 1 is not a float literal raises `ValueError`. -/
def transportDistanceClause (text : List Char) (n : ℕ) : Except PyErr Meta :=
  match searchFrom (reDistance n) text with
  | some (_, caps, _) =>
      match getCap caps 1, getCap caps 2 with
      | some g1, some g2 =>
          match decimalOfChars g1 with
          | some d => .ok [("distance_km", JVal.num d), ("duration_min", JVal.jint (natOfDigits g2 : ℤ))]
          | none => .error .valueError
      | _, _ => .ok []
  | none => .ok []

def transportLocationsClause (text : List Char) (n : ℕ) : Meta :=
  match findallR (reLocTime n) text with
  | p0 :: p1 :: _ =>
      (match getCap p0 1 with | some g => [("pickup", JVal.str ⟨pyStrip g⟩)] | none => []) ++
      (match getCap p0 2 with | some g => [("pickup_time", JVal.str ⟨g⟩)] | none => []) ++
      (match getCap p1 1 with | some g => [("dropoff", JVal.str ⟨pyStrip g⟩)] | none => []) ++
      (match getCap p1 2 with | some g => [("dropoff_time", JVal.str ⟨g⟩)] | none => [])
  | _ => []

def transportPaymentClause (text : List Char) (n : ℕ) : Meta :=
  match searchFrom (rePayPrimary n) text with
  | some (_, caps, _) =>
      match getCap caps 1 with
      | some g => [("payment_method", JVal.str ⟨"Card ending ".data ++ g⟩)]
      | none => []
  | none => vocabPaymentClause (rePayFallback n) text

/-- The clause sequence of the transport extractor in source order, around a
given result `distPart` of the distance/duration clause. -/
def transportClauses (text : List Char) (n : ℕ) (distPart : Meta) : Meta :=
  strClause "service_class" (reServiceClass n) text ++ distPart ++
  transportLocationsClause text n ++
  numClause "fare" (reFare n) text ++
  numClause "toll" (reToll n) text ++
  numClause "platform_fee" (rePlatformFee n) text ++
  transportPaymentClause text n

/-- `extract_transport_metadata` (cli.py:170); `Except` because the
distance clause can raise. -/
def extract_transport_metadata (body : String) : Except PyErr Meta :=
  match transportDistanceClause (strip_html body).data ((strip_html body).data.length + 1) with
  | .error e => .error e
  | .ok distPart =>
      .ok (transportClauses (strip_html body).data ((strip_html body).data.length + 1) distPart)

/-- `extract_tip_metadata` (cli.py:228). -/
def extract_tip_metadata (body : String) : Meta :=
  let text := (strip_html body).data
  let n := text.length + 1
  strClause "driver_name" (reTipDriver n) text ++
  vocabPaymentClause (reTipPayment n) text

/-- `extract_metadata` (cli.py:277): dispatch on the service label. -/
def extract_metadata (body : String) (service_type : String) : Except PyErr Meta :=
  if service_type = "GrabFood" then .ok (extract_food_metadata body)
  else if service_type = "GrabTransport" then extract_transport_metadata body
  else if service_type = "GrabTip" then .ok (extract_tip_metadata body)
  else .ok []

/-! ### JSON serialization (`json.dumps(metadata, ensure_ascii=False)`) and a
model of `json.loads` for the round-trip claim -/

def hexDig (n : ℕ) : Char := if n < 10 then digitCh n else Char.ofNat (87 + n)

/-- `json.dumps` escaping of one character under `ensure_ascii=False`. -/
def escChar (c : Char) : List Char :=
  if c = '"' then ['\\', '"']
  else if c = '\\' then ['\\', '\\']
  else if c = '\n' then ['\\', 'n']
  else if c = '\t' then ['\\', 't']
  else if c = '\r' then ['\\', 'r']
  else if c = '\x08' then ['\\', 'b']
  else if c = '\x0c' then ['\\', 'f']
  else if c.toNat < 32 then ['\\', 'u', '0', '0', hexDig (c.toNat / 16), hexDig (c.toNat % 16)]
  else [c]

def escString (l : List Char) : List Char := l.foldr (fun c acc => escChar c ++ acc) []

def jstrDump (s : String) : List Char := '"' :: escString s.data ++ ['"']

def jvalDump : JVal → List Char
  | .str s => jstrDump s
  | .num q => qRepr q
  | .jint z => if z < 0 then '-' :: natDigits z.natAbs else natDigits z.toNat
  | .null => "null".data

/-- Entries joined with the default `json.dumps` separators `", "` / `": "`. -/
def joinEntries : Meta → List Char
  | [] => []
  | [(k, v)] => jstrDump k ++ ':' :: ' ' :: jvalDump v
  | (k, v) :: e :: rest => jstrDump k ++ ':' :: ' ' :: jvalDump v ++ ',' :: ' ' :: joinEntries (e :: rest)

/-- `json.dumps(m, ensure_ascii=False)` for a flat string-keyed dict. -/
def jdumps (m : Meta) : String := ⟨'\x7b' :: (joinEntries m ++ ['\x7d'])⟩

def hexVal (c : Char) : Option ℕ :=
  if c.isDigit then some (c.toNat - 48)
  else if decide ('a' ≤ c) && decide (c ≤ 'f') then some (c.toNat - 87)
  else if decide ('A' ≤ c) && decide (c ≤ 'F') then some (c.toNat - 55)
  else none

/-- JSON string-body parser (after the opening quote): returns the decoded
content and the remainder after the closing quote. -/
def parseJStr : List Char → Option (List Char × List Char)
  | [] => none
  | c :: t =>
      if c = '\\' then
        match t with
        | [] => none
        | e :: r =>
            if e = '"' then (parseJStr r).map (fun p => ('"' :: p.1, p.2))
            else if e = '\\' then (parseJStr r).map (fun p => ('\\' :: p.1, p.2))
            else if e = '/' then (parseJStr r).map (fun p => ('/' :: p.1, p.2))
            else if e = 'n' then (parseJStr r).map (fun p => ('\n' :: p.1, p.2))
            else if e = 't' then (parseJStr r).map (fun p => ('\t' :: p.1, p.2))
            else if e = 'r' then (parseJStr r).map (fun p => ('\r' :: p.1, p.2))
            else if e = 'b' then (parseJStr r).map (fun p => ('\x08' :: p.1, p.2))
            else if e = 'f' then (parseJStr r).map (fun p => ('\x0c' :: p.1, p.2))
            else if e = 'u' then
              match r with
              | a :: b :: c2 :: d :: r2 =>
                  match hexVal a, hexVal b, hexVal c2, hexVal d with
                  | some ha, some hb, some hc, some hd =>
                      (parseJStr r2).map (fun p =>
                        (Char.ofNat (((ha * 16 + hb) * 16 + hc) * 16 + hd) :: p.1, p.2))
                  | _, _, _, _ => none
              | _ => none
            else none
      else if c = '"' then some ([], t)
      else (parseJStr t).map (fun p => (c :: p.1, p.2))

/-- JSON number parser: an integer yields `jint`, a decimal point `num`. -/
def parseJNum (l : List Char) : Option (JVal × List Char) :=
  let sgn := l.head? == some '-'
  let l1 := if sgn then l.drop 1 else l
  let ds := l1.takeWhile Char.isDigit
  if ds.isEmpty then none
  else
    match l1.drop ds.length with
    | p :: r2 =>
        if p = '.' then
          let fr := r2.takeWhile Char.isDigit
          if fr.isEmpty then none
          else
            let v : ℚ := ((natOfDigits ds * 10 ^ fr.length + natOfDigits fr : ℕ) : ℚ) /
              ((10 : ℚ) ^ fr.length)
            some (.num (if sgn then -v else v), r2.drop fr.length)
        else some (.jint (if sgn then -(natOfDigits ds : ℤ) else (natOfDigits ds : ℤ)), p :: r2)
    | [] => some (.jint (if sgn then -(natOfDigits ds : ℤ) else (natOfDigits ds : ℤ)), [])

def skipWsJ (l : List Char) : List Char :=
  l.dropWhile (fun c => c = ' ' || c = '\t' || c = '\n' || c = '\r')

def parseJVal (l : List Char) : Option (JVal × List Char) :=
  match l with
  | [] => none
  | c :: t =>
      if c = '"' then (parseJStr t).map (fun p => (JVal.str ⟨p.1⟩, p.2))
      else if startsWithL (c :: t) "null".data then some (.null, (c :: t).drop 4)
      else parseJNum (c :: t)

/-- Comma-separated `"key": value` entries. -/
def parseEntriesGo : ℕ → List Char → Option (Meta × List Char)
  | 0, _ => none
  | fuel + 1, l =>
      match skipWsJ l with
      | [] => none
      | c :: t =>
          if c = '"' then
            match parseJStr t with
            | some (key, r1) =>
                match skipWsJ r1 with
                | [] => none
                | c2 :: r2 =>
                    if c2 = ':' then
                      match parseJVal (skipWsJ r2) with
                      | some (v, r3) =>
                          match skipWsJ r3 with
                          | [] => some ([(⟨key⟩, v)], [])
                          | c3 :: r4 =>
                              if c3 = ',' then
                                (parseEntriesGo fuel r4).map
                                  (fun p => ((⟨key⟩, v) :: p.1, p.2))
                              else some ([(⟨key⟩, v)], c3 :: r4)
                      | none => none
                    else none
            | none => none
          else none

/-- Model of `json.loads` on flat string-keyed objects. -/
def jparse (s : String) : Option Meta :=
  match skipWsJ s.data with
  | [] => none
  | c :: t =>
      if c = '\x7b' then
        match skipWsJ t with
        | [] => none
        | c2 :: r =>
            if c2 = '\x7d' then (if (skipWsJ r).isEmpty then some [] else none)
            else
              match parseEntriesGo (t.length + 1) t with
              | some (m, r1) =>
                  match skipWsJ r1 with
                  | [] => none
                  | c3 :: r2 =>
                      if c3 = '\x7d' then (if (skipWsJ r2).isEmpty then some m else none)
                      else none
              | none => none
      else none

/-! ### Record assembler (cli.py:290, `parse_email_to_row`) -/

/-- One body part: content type and the result of
`get_payload(decode=True)` decoded with `errors="replace"` (`none` models a
missing payload or a raised exception, both of which the walk skips). -/
structure EmailPart where
  ctype : String
  decoded : Option String
deriving DecidableEq, Repr

inductive MsgBody where
  | multi : List EmailPart → MsgBody
  | single : EmailPart → MsgBody
deriving DecidableEq, Repr

structure EmailMessage where
  date : String
  body : MsgBody
deriving DecidableEq, Repr

def isTextCtype (s : String) : Bool := s = "text/plain" || s = "text/html"

/-- `get_email_text` (cli.py:34): decoded text parts joined by newlines; in
the single-part branch an empty payload is falsy and yields nothing. -/
def get_email_text (msg : EmailMessage) : String :=
  match msg.body with
  | .multi parts =>
      String.intercalate "\n"
        ((parts.filter (fun p => isTextCtype p.ctype)).filterMap (fun p => p.decoded))
  | .single p =>
      if isTextCtype p.ctype then
        match p.decoded with
        | some s => if s = "" then "" else s
        | none => ""
      else ""

/-- Models the f-string `f"{total:.2f}"` on the nonnegative exact-decimal
totals produced by `extract_total_amount` (at most two fractional digits, so
no floating-point rounding is involved). -/
def formatFixed2 (q : ℚ) : String :=
  let n := (q * 100).floor.toNat
  ⟨natDigits (n / 100) ++ '.' :: padZeros 2 (natDigits (n % 100))⟩

structure Row where
  uid : String
  date : String
  type : String
  order_id : String
  currency : String
  total_amount : String
  metadata : String
deriving DecidableEq, Repr

/-- The rationals that model floats reachable in metadata: nonnegative exact
decimals (their denominator divides a power of ten, and hence `10 ^ den`). -/
def wfQ (q : ℚ) : Prop := 0 ≤ q ∧ (q.den : ℕ) ∣ 10 ^ q.den

/-- The values an extractor can place in a metadata mapping. -/
def wfVal : JVal → Prop
  | .str _ => True
  | .num q => wfQ q
  | .jint z => 0 ≤ z
  | .null => True

def wfDict (m : Meta) : Prop := ∀ p ∈ m, wfVal p.2

/-- `parse_email_to_row` (cli.py:290).  The stdlib collaborator
`email.utils.parsedate_to_datetime` composed with `isoformat` is passed in as
an opaque parameter `parsedate`; `none` models its `except` branch, which
falls back to the raw header.  `Except` because the transport extractor can
raise. -/
def mkRow (uid : ℕ) (date_iso service_type : String) (order_id : Option String)
    (total : Option ℚ) (metadata : Meta) : Row :=
  { uid := ⟨natDigits uid⟩
    date := date_iso
    type := service_type
    order_id := order_id.getD ""
    currency := if total.isSome then "THB" else ""
    total_amount := match total with | some t => formatFixed2 t | none => ""
    metadata := if metadata.isEmpty then "" else jdumps metadata }

def parse_email_to_row (parsedate : String → Option String) (uid : ℕ)
    (msg : EmailMessage) : Except PyErr Row :=
  match extract_metadata (get_email_text msg) (detect_service_type (get_email_text msg)) with
  | .error e => .error e
  | .ok metadata =>
      .ok (mkRow uid ((parsedate msg.date).getD msg.date)
        (detect_service_type (get_email_text msg))
        (extract_order_id (get_email_text msg))
        (extract_total_amount (get_email_text msg)) metadata)

/-! ## Supporting lemmas -/

theorem isDigit_toNat_bounds {c : Char} (h : c.isDigit = true) :
    48 ≤ c.toNat ∧ c.toNat ≤ 57 := by
  simp only [Char.isDigit, ge_iff_le, Bool.and_eq_true, decide_eq_true_eq] at h
  exact h

theorem isDigit_ne {c : Char} (h : c.isDigit = true) (d : Char) (hd : d.isDigit = false) :
    ¬ c = d := by
  intro he
  rw [he, hd] at h
  exact Bool.false_ne_true h

theorem pyIsSpace_of_isDigit {c : Char} (h : c.isDigit = true) : pyIsSpace c = false := by
  by_contra hb
  rw [Bool.not_eq_false] at hb
  simp only [pyIsSpace, Bool.or_eq_true, Bool.and_eq_true, decide_eq_true_eq] at hb
  obtain ⟨h1, h2⟩ := isDigit_toNat_bounds h
  rcases hb with ((((((((((((((((((hb)|hb)|hb)|hb)|hb)|hb)|hb)|hb)|hb)|hb)|hb)|hb)|hb)|⟨hb1,hb2⟩)|hb)|hb)|hb)|hb)|hb
  all_goals try (subst hb; revert h1 h2; decide)
  omega

theorem isDigitComma_of_isDigit {c : Char} (h : c.isDigit = true) : isDigitComma c = true := by
  simp [isDigitComma, h]

/-! ## C1 -/

/-- C1: `detect_service_type` is a total function into the four labels, and
any text containing one of the three tip markers classifies as `GrabTip`
(the tip check is the first tier). -/
theorem C1_detect_total_and_tip_priority :
    (∀ s : String, detect_service_type s = "GrabFood" ∨
      detect_service_type s = "GrabTransport" ∨ detect_service_type s = "GrabTip" ∨
      detect_service_type s = "Unknown") ∧
    (∀ s : String,
      containsSub s.data "Tips E-Receipt".data = true ∨
      containsSub s.data "ทิปเพื่อเป็นกำลังใจ".data = true ∨
      containsSub s.data "Grab Tips E-Receipt".data = true →
      detect_service_type s = "GrabTip") := by
  constructor
  · intro s
    unfold detect_service_type
    split_ifs <;> simp
  · intro s h
    have ht : tipMarkerCheck s.data = true := by
      rcases h with h | h | h <;> simp [tipMarkerCheck, h]
    simp [detect_service_type, ht]

/-- Witness for C1: a text containing both a tip marker and the food marker
classifies as `GrabTip`. -/
theorem C1_witness :
    containsSub "Tips E-Receipt SOURCE_GRABFOOD".data "Tips E-Receipt".data = true ∧
    detect_service_type "Tips E-Receipt SOURCE_GRABFOOD" = "GrabTip" :=
  ⟨by decide, C1_detect_total_and_tip_priority.2 _ (Or.inl (by decide))⟩

/-! ## C2 -/

/-- C2 (code bug): the distance/duration clause of the transport extractor
converts with a bare `float()` instead of the shared `parse_amount` rule, so
on a text whose matched distance group is `"."` it raises `ValueError`
(where `parse_amount` would have yielded absence). -/
theorem C2_transport_extractor_raises :
    extract_transport_metadata ". km • 3 min" = .error .valueError ∧
    parse_amount "." = none :=
  ⟨rfl, rfl⟩

/-! ## C3 -/

/-- C3: `extract_total_amount` tries the three patterns in order; the first
pattern's converted match wins; a match that fails conversion (after comma
stripping, which `convGroup` performs) falls through to the remaining
patterns; and the three spec examples evaluate as stated. -/
theorem C3_extract_total_amount_order :
    (∀ (body : String) (g : List Char) (v : ℚ), searchPat1 body.data = some g →
      convGroup g = some v → extract_total_amount body = some v) ∧
    (∀ (body : String) (g : List Char), searchPat1 body.data = some g →
      convGroup g = none →
      extract_total_amount body = tryAmountPatterns [searchPat2, searchPat3] body.data) ∧
    (∀ body : String, searchPat1 body.data = none →
      extract_total_amount body = tryAmountPatterns [searchPat2, searchPat3] body.data) ∧
    extract_total_amount "฿ 1,234" = some 1234 ∧
    extract_total_amount "THB 245.00" = some 245 ∧
    extract_total_amount "no amount" = none := by
  refine ⟨?_, ?_, ?_, by decide, ?_, by decide⟩
  · intro body g v h1 h2
    simp [extract_total_amount, tryAmountPatterns, h1, h2]
  · intro body g h1 h2
    simp [extract_total_amount, tryAmountPatterns, h1, h2]
  · intro body h1
    simp [extract_total_amount, tryAmountPatterns, h1]
  · have h : extract_total_amount "THB 245.00" =
        some (((24500 : ℕ) : ℚ) / (10 : ℚ) ^ 2) := rfl
    rw [h]
    norm_num

/-- Witness for C3: the first-pattern-wins part applied at `"฿ 1,234"`. -/
theorem C3_witness : extract_total_amount "฿ 1,234" = some 1234 :=
  C3_extract_total_amount_order.1 "฿ 1,234" "1,234".data 1234 (by decide) (by decide)

/-! ## C4 -/

/-- C4: `strip_html` removes style blocks first, then the remaining tags
(each replaced by one space), collapses whitespace, and unescapes entities
last; on the spec example the result is `" Content "`, which contains
`"Content"` and not `"color"`. -/
theorem C4_strip_html_order :
    (∀ s : String, strip_html s = ⟨unescapeL (collapseWs (removeTags (removeStyle s.data)))⟩) ∧
    strip_html "<style>.c\x7bcolor:red\x7d</style><p>Content</p>" = " Content " ∧
    containsSub (strip_html "<style>.c\x7bcolor:red\x7d</style><p>Content</p>").data
      "Content".data = true ∧
    containsSub (strip_html "<style>.c\x7bcolor:red\x7d</style><p>Content</p>").data
      "color".data = false :=
  ⟨fun _ => rfl, by decide, by decide, by decide⟩

/-! ## C6 -/

theorem searchOrderId_eq_findSome (l : List Char) :
    searchOrderId l = (List.range l.length).findSome? (fun i => orderIdAt (l.drop i)) := by
  induction l with
  | nil => rfl
  | cons c t ih =>
      rw [List.length_cons, List.range_succ_eq_map, List.findSome?_cons]
      have hcomp : (fun i => orderIdAt ((c :: t).drop i)) ∘ (· + 1) =
          fun i => orderIdAt (t.drop i) := by
        funext i
        simp
      cases h : orderIdAt (c :: t) with
      | some r => simp [searchOrderId, h]
      | none =>
          simp only [List.drop_zero] at h ⊢
          rw [h]
          simp only [searchOrderId, h, List.findSome?_map, hcomp, ih]

/-- C6: `extract_order_id` returns the leftmost match of the single pattern
(`orderIdAt`: the literal `A-` followed by a greedy run of at least ten
uppercase alphanumerics), or `none`; the two spec examples evaluate as
stated. -/
theorem C6_extract_order_id_first_match :
    extract_order_id "Order: A-8Q34JAIGWGQMAV" = some "A-8Q34JAIGWGQMAV" ∧
    extract_order_id "B-1234567890" = none ∧
    ∀ s : String, extract_order_id s =
      ((List.range s.data.length).findSome? (fun i => orderIdAt (s.data.drop i))).map
        (fun l => (⟨l⟩ : String)) := by
  refine ⟨by decide, by decide, ?_⟩
  intro s
  unfold extract_order_id
  rw [searchOrderId_eq_findSome]

/-! ## C9 and C10 -/

theorem takeWhile_append_done {p : Char → Bool} (xs : List Char) (h : ∀ x ∈ xs, p x = true)
    (y : Char) (hy : p y = false) (r : List Char) :
    (xs ++ y :: r).takeWhile p = xs := by
  induction xs with
  | nil => simp [List.takeWhile_cons, hy]
  | cons a t ih =>
      have ha := h a (List.mem_cons_self a t)
      simp [List.takeWhile_cons, ha, ih (fun x hx => h x (List.mem_cons_of_mem a hx))]

theorem amountPat1At_digits_dot (c : Char) (cs : List Char) (d : Char)
    (hds : ∀ x ∈ c :: cs, x.isDigit = true) (_hd : d.isDigit = true) :
    amountPat1At ('฿' :: ' ' :: c :: (cs ++ '.' :: [d])) = some (c :: cs) := by
  have hc := hds c (List.mem_cons_self c cs)
  have hdrop : List.dropWhile pyIsSpace (' ' :: c :: (cs ++ '.' :: [d])) =
      c :: (cs ++ '.' :: [d]) := by
    simp [List.dropWhile_cons, pyIsSpace_of_isDigit hc,
      (by decide : pyIsSpace ' ' = true)]
  have htake : List.takeWhile isDigitComma (c :: (cs ++ '.' :: [d])) = c :: cs := by
    have h := takeWhile_append_done (c :: cs)
      (fun x hx => isDigitComma_of_isDigit (hds x hx)) '.' (by decide) [d]
    simpa using h
  have hdroplen : List.drop (cs.length + 1) (c :: (cs ++ '.' :: [d])) = '.' :: [d] := by
    rw [List.drop_succ_cons]
    exact List.drop_left cs ('.' :: [d])
  simp only [amountPat1At, hdrop, htake, List.length_cons, hdroplen, List.isEmpty_cons]
  rfl

theorem convGroup_digits (ds : List Char) (hne : ds ≠ [])
    (hds : ∀ x ∈ ds, x.isDigit = true) :
    convGroup ds = some ((natOfDigits ds : ℕ) : ℚ) := by
  have hsc : stripCommas ds = ds := by
    apply List.filter_eq_self.mpr
    intro a ha
    simpa using isDigit_ne (hds a ha) ',' (by decide)
  have htw : ds.takeWhile Char.isDigit = ds := List.takeWhile_eq_self_iff.mpr hds
  have hdw : ds.dropWhile Char.isDigit = [] := List.dropWhile_eq_nil_iff.mpr hds
  have hemp : ds.isEmpty = false := by
    cases ds with
    | nil => exact absurd rfl hne
    | cons a t => rfl
  simp only [convGroup, decimalOfChars, hsc, htw, hdw, hemp]
  rfl

/-- C9: when the Thai-baht amount has a one-digit fractional part, the
optional `\.\d{2}` suffix of the first pattern does not fire and only the
digit group before the decimal point is returned. -/
theorem C9_one_digit_fraction (ds : List Char) (d : Char) (hne : ds ≠ [])
    (hds : ∀ x ∈ ds, x.isDigit = true) (hd : d.isDigit = true) :
    extract_total_amount ⟨'฿' :: ' ' :: (ds ++ '.' :: [d])⟩ =
      some ((natOfDigits ds : ℕ) : ℚ) := by
  obtain ⟨c, cs, rfl⟩ : ∃ c cs, ds = c :: cs := by
    cases ds with
    | nil => exact absurd rfl hne
    | cons c cs => exact ⟨c, cs, rfl⟩
  have hAt := amountPat1At_digits_dot c cs d hds hd
  have hsearch : searchPat1 ('฿' :: ' ' :: c :: (cs ++ '.' :: [d])) = some (c :: cs) := by
    have hstep : searchPat1 ('฿' :: ' ' :: c :: (cs ++ '.' :: [d])) =
        match amountPat1At ('฿' :: ' ' :: c :: (cs ++ '.' :: [d])) with
        | some g => some g
        | none => searchPat1 (' ' :: c :: (cs ++ '.' :: [d])) := rfl
    rw [hstep, hAt]
  have hconv := convGroup_digits (c :: cs) (by simp) hds
  show extract_total_amount ⟨'฿' :: ' ' :: c :: (cs ++ '.' :: [d])⟩ =
    some ((natOfDigits (c :: cs) : ℕ) : ℚ)
  have h1 : extract_total_amount ⟨'฿' :: ' ' :: c :: (cs ++ '.' :: [d])⟩ =
      match searchPat1 ('฿' :: ' ' :: c :: (cs ++ '.' :: [d])) with
      | some g =>
          (match convGroup g with
           | some v => some v
           | none => tryAmountPatterns [searchPat2, searchPat3]
               ('฿' :: ' ' :: c :: (cs ++ '.' :: [d])))
      | none => tryAmountPatterns [searchPat2, searchPat3]
          ('฿' :: ' ' :: c :: (cs ++ '.' :: [d])) := rfl
  rw [h1, hsearch]
  show (match convGroup (c :: cs) with
        | some v => some v
        | none => tryAmountPatterns [searchPat2, searchPat3]
            ('฿' :: ' ' :: c :: (cs ++ '.' :: [d]))) =
      some ((natOfDigits (c :: cs) : ℕ) : ℚ)
  rw [hconv]

/-- Witness for C9 at `"฿ 12.5"`. -/
theorem C9_witness : extract_total_amount "฿ 12.5" = some 12 := by
  have h := C9_one_digit_fraction ['1', '2'] '5' (by decide) (by decide) (by decide)
  have he : (⟨'฿' :: ' ' :: (['1', '2'] ++ '.' :: ['5'])⟩ : String) = "฿ 12.5" := rfl
  have hv : natOfDigits ['1', '2'] = 12 := rfl
  rw [he, hv] at h
  rw [h]
  norm_num

/-- C10: the order-id pattern is not anchored at word boundaries: inside
`"VISA-123456789012"` it matches the embedded `"A-123456789012"`. -/
theorem C10_order_id_inside_token :
    extract_order_id "VISA-123456789012" = some "A-123456789012" := by decide

/-! ## C5 -/

theorem lookup_append (k : String) (l₁ l₂ : Meta) :
    List.lookup k (l₁ ++ l₂) = (List.lookup k l₁).orElse fun _ => List.lookup k l₂ := by
  induction l₁ with
  | nil => simp [List.lookup]
  | cons p t ih =>
      obtain ⟨a, b⟩ := p
      by_cases h : (k == a) = true
      · simp [List.lookup, h]
      · rw [Bool.not_eq_true] at h
        simp [List.lookup, h, ih]

theorem lookup_singleton_ne (k key : String) (v : JVal) (h : ¬ k = key) :
    List.lookup k [(key, v)] = none := by
  have hb : (k == key) = false := beq_eq_false_iff_ne.mpr h
  simp [List.lookup, hb]

theorem lookup_shape_none {k key : String} {m : Meta}
    (hs : m = [] ∨ ∃ v, m = [(key, v)]) (h : ¬ k = key) : List.lookup k m = none := by
  rcases hs with rfl | ⟨v, rfl⟩
  · rfl
  · exact lookup_singleton_ne k key v h

theorem lookup_append_none {k : String} {l₁ l₂ : Meta} (h1 : List.lookup k l₁ = none)
    (h2 : List.lookup k l₂ = none) : List.lookup k (l₁ ++ l₂) = none := by
  rw [lookup_append, h1]
  exact h2

theorem strClause_shape (key : String) (re : RExp) (text : List Char) :
    strClause key re text = [] ∨ ∃ v, strClause key re text = [(key, v)] := by
  unfold strClause
  split
  · split
    · exact Or.inr ⟨_, rfl⟩
    · exact Or.inl rfl
  · exact Or.inl rfl

theorem numClause_shape (key : String) (re : RExp) (text : List Char) :
    numClause key re text = [] ∨ ∃ v, numClause key re text = [(key, v)] := by
  unfold numClause
  split
  · split
    · exact Or.inr ⟨_, rfl⟩
    · exact Or.inl rfl
  · exact Or.inl rfl

theorem paymentFromCaps_shape (caps : Caps) :
    paymentFromCaps caps = [] ∨ ∃ v, paymentFromCaps caps = [("payment_method", v)] := by
  unfold paymentFromCaps
  split
  · exact Or.inr ⟨_, rfl⟩
  · exact Or.inl rfl

theorem vocabPaymentClause_shape (re : RExp) (text : List Char) :
    vocabPaymentClause re text = [] ∨
    ∃ v, vocabPaymentClause re text = [("payment_method", v)] := by
  unfold vocabPaymentClause
  split
  · exact paymentFromCaps_shape _
  · exact Or.inl rfl

theorem transportPaymentClause_shape (text : List Char) (n : ℕ) :
    transportPaymentClause text n = [] ∨
    ∃ v, transportPaymentClause text n = [("payment_method", v)] := by
  unfold transportPaymentClause
  split
  · split
    · exact Or.inr ⟨_, rfl⟩
    · exact Or.inl rfl
  · exact vocabPaymentClause_shape _ _

theorem lookup_locations_none (text : List Char) (n : ℕ) (k : String)
    (h1 : ¬ k = "pickup") (h2 : ¬ k = "pickup_time") (h3 : ¬ k = "dropoff")
    (h4 : ¬ k = "dropoff_time") :
    List.lookup k (transportLocationsClause text n) = none := by
  unfold transportLocationsClause
  split
  · refine lookup_append_none (lookup_append_none (lookup_append_none ?_ ?_) ?_) ?_
    · split
      · exact lookup_singleton_ne _ _ _ h1
      · rfl
    · split
      · exact lookup_singleton_ne _ _ _ h2
      · rfl
    · split
      · exact lookup_singleton_ne _ _ _ h3
      · rfl
    · split
      · exact lookup_singleton_ne _ _ _ h4
      · rfl
  · rfl

theorem transportDistanceClause_shape (text : List Char) (n : ℕ) :
    transportDistanceClause text n = .error .valueError ∨
    transportDistanceClause text n = .ok [] ∨
    ∃ dv zv, transportDistanceClause text n =
      .ok [("distance_km", JVal.num dv), ("duration_min", JVal.jint zv)] := by
  unfold transportDistanceClause
  split
  · split
    · split
      · exact Or.inr (Or.inr ⟨_, _, rfl⟩)
      · exact Or.inl rfl
    · exact Or.inr (Or.inl rfl)
  · exact Or.inr (Or.inl rfl)

theorem lookup_transportClauses (text : List Char) (n : ℕ) (distPart : Meta) (k : String)
    (hk : k = "distance_km" ∨ k = "duration_min") :
    List.lookup k (transportClauses text n distPart) = List.lookup k distPart := by
  have hsc : List.lookup k (strClause "service_class" (reServiceClass n) text) = none :=
    lookup_shape_none (strClause_shape _ _ _) (by rcases hk with rfl | rfl <;> decide)
  have hloc : List.lookup k (transportLocationsClause text n) = none :=
    lookup_locations_none text n k (by rcases hk with rfl | rfl <;> decide)
      (by rcases hk with rfl | rfl <;> decide) (by rcases hk with rfl | rfl <;> decide)
      (by rcases hk with rfl | rfl <;> decide)
  have hfare : List.lookup k (numClause "fare" (reFare n) text) = none :=
    lookup_shape_none (numClause_shape _ _ _) (by rcases hk with rfl | rfl <;> decide)
  have htoll : List.lookup k (numClause "toll" (reToll n) text) = none :=
    lookup_shape_none (numClause_shape _ _ _) (by rcases hk with rfl | rfl <;> decide)
  have hpf : List.lookup k (numClause "platform_fee" (rePlatformFee n) text) = none :=
    lookup_shape_none (numClause_shape _ _ _) (by rcases hk with rfl | rfl <;> decide)
  have hpay : List.lookup k (transportPaymentClause text n) = none :=
    lookup_shape_none (transportPaymentClause_shape _ _) (by rcases hk with rfl | rfl <;> decide)
  unfold transportClauses
  rw [lookup_append, lookup_append, lookup_append, lookup_append, lookup_append,
    lookup_append, hsc, hloc, hfare, htoll, hpf, hpay]
  cases List.lookup k distPart <;> rfl

/-- C5: in every mapping the transport extractor returns, `distance_km` is
present iff `duration_min` is (the one clause sets both or neither); on the
spec example both are set, to `17.18` and `38`. -/
theorem C5_distance_duration_together :
    (∀ (body : String) (m : Meta), extract_transport_metadata body = .ok m →
      ((List.lookup "distance_km" m).isSome ↔ (List.lookup "duration_min" m).isSome)) ∧
    extract_transport_metadata "17.18 km • 38 mins" =
      .ok [("distance_km", JVal.num (1718 / 100)), ("duration_min", JVal.jint 38)] := by
  constructor
  · intro body m h
    unfold extract_transport_metadata at h
    split at h
    · exact absurd h (by simp)
    · rename_i distPart heq
      have hm := (Except.ok.inj h).symm
      subst hm
      rw [lookup_transportClauses _ _ _ _ (Or.inl rfl),
        lookup_transportClauses _ _ _ _ (Or.inr rfl)]
      rcases transportDistanceClause_shape (strip_html body).data
          ((strip_html body).data.length + 1) with hd | hd | ⟨dv, zv, hd⟩ <;>
        rw [hd] at heq
      · exact absurd heq (by simp)
      · have hdp : distPart = [] := (Except.ok.inj heq).symm
        subst hdp
        rfl
      · have hdp : distPart = [("distance_km", JVal.num dv), ("duration_min", JVal.jint zv)] :=
          (Except.ok.inj heq).symm
        subst hdp
        simp [List.lookup]
  · have h : extract_transport_metadata "17.18 km • 38 mins" =
        .ok [("distance_km", JVal.num (((1718 : ℕ) : ℚ) / (10 : ℚ) ^ 2)),
          ("duration_min", JVal.jint 38)] := rfl
    rw [h]
    norm_num

/-- Witness for C5: the both-or-neither property applied at the spec
example. -/
theorem C5_witness :
    (List.lookup "distance_km"
        [("distance_km", JVal.num (1718 / 100)), ("duration_min", JVal.jint 38)]).isSome ↔
    (List.lookup "duration_min"
        [("distance_km", JVal.num (1718 / 100)), ("duration_min", JVal.jint 38)]).isSome :=
  C5_distance_duration_together.1 "17.18 km • 38 mins" _
    C5_distance_duration_together.2

/-! ## C7 -/

/-- C7: in every row the assembler produces, `currency` is `"THB"` exactly
when a total was found, and then `total_amount` is the total formatted to two
decimal places; with no total both fields are empty. -/
theorem C7_currency_iff_total :
    ∀ (parsedate : String → Option String) (uid : ℕ) (msg : EmailMessage) (row : Row),
      parse_email_to_row parsedate uid msg = .ok row →
      (∀ t : ℚ, extract_total_amount (get_email_text msg) = some t →
        row.currency = "THB" ∧ row.total_amount = formatFixed2 t) ∧
      (extract_total_amount (get_email_text msg) = none →
        row.currency = "" ∧ row.total_amount = "") := by
  intro pd uid msg row h
  unfold parse_email_to_row at h
  split at h
  · exact absurd h (by simp)
  · rename_i metadata heq
    have hr := (Except.ok.inj h).symm
    subst hr
    constructor
    · intro t ht
      constructor <;> simp [mkRow, ht]
    · intro ht
      constructor <;> simp [mkRow, ht]

/-- Witness for C7 on a message with no total amount. -/
theorem C7_witness :
    (Row.mk "0" "" "Unknown" "" "" "" "").currency = "" ∧
    (Row.mk "0" "" "Unknown" "" "" "" "").total_amount = "" :=
  (C7_currency_iff_total (fun _ => none) 0
      ⟨"", .single ⟨"text/plain", some "hello"⟩⟩
      (Row.mk "0" "" "Unknown" "" "" "" "") (by rfl)).2 (by rfl)

/-! ## C8: digit-string printing lemmas -/

theorem foldl_digits_general (l : List Char) (init : ℕ) :
    l.foldl (fun a c => a * 10 + (c.toNat - 48)) init =
      init * 10 ^ l.length + l.foldl (fun a c => a * 10 + (c.toNat - 48)) 0 := by
  induction l generalizing init with
  | nil => simp
  | cons c t ih =>
      rw [List.foldl_cons, List.foldl_cons, ih (init * 10 + (c.toNat - 48)),
        ih (0 * 10 + (c.toNat - 48))]
      simp only [List.length_cons, pow_succ]
      ring

theorem natOfDigits_append (a b : List Char) :
    natOfDigits (a ++ b) = natOfDigits a * 10 ^ b.length + natOfDigits b := by
  unfold natOfDigits
  rw [List.foldl_append, foldl_digits_general]

theorem digitCh_isDigit {n : ℕ} (h : n < 10) : (digitCh n).isDigit = true := by
  interval_cases n <;> decide

theorem digitCh_toNat {n : ℕ} (h : n < 10) : (digitCh n).toNat - 48 = n := by
  interval_cases n <;> decide

theorem natDigitsAux_spec : ∀ (fuel n : ℕ), n < 10 ^ fuel → 1 ≤ fuel →
    natDigitsAux fuel n ≠ [] ∧ (∀ c ∈ natDigitsAux fuel n, c.isDigit = true) ∧
      natOfDigits (natDigitsAux fuel n) = n := by
  intro fuel
  induction fuel with
  | zero => intro n _ h1; omega
  | succ f ih =>
      intro n h _
      by_cases hn : n < 10
      · simp only [natDigitsAux, if_pos hn]
        refine ⟨by simp, ?_, ?_⟩
        · intro c hc
          rw [List.mem_singleton] at hc
          subst hc
          exact digitCh_isDigit hn
        · simp [natOfDigits, digitCh_toNat hn]
      · simp only [natDigitsAux, if_neg hn]
        have hf : 1 ≤ f := by
          rcases Nat.eq_zero_or_pos f with rfl | hpos
          · simp at h; omega
          · exact hpos
        have hdiv : n / 10 < 10 ^ f := by
          rw [pow_succ] at h
          omega
        obtain ⟨hne, hall, hval⟩ := ih (n / 10) hdiv hf
        have hmod : n % 10 < 10 := Nat.mod_lt n (by norm_num)
        refine ⟨by simp [hne], ?_, ?_⟩
        · intro c hc
          rcases List.mem_append.mp hc with hc | hc
          · exact hall c hc
          · rw [List.mem_singleton] at hc
            subst hc
            exact digitCh_isDigit hmod
        · rw [natOfDigits_append, hval]
          have : natOfDigits [digitCh (n % 10)] = n % 10 := by
            simp [natOfDigits, digitCh_toNat hmod]
          rw [this]
          simp only [List.length_singleton, pow_one]
          omega

theorem n_lt_ten_pow (n : ℕ) : n < 10 ^ (n + 1) :=
  lt_of_lt_of_le (Nat.lt_pow_self (by norm_num) n)
    (Nat.pow_le_pow_right (by norm_num) (by omega))

theorem natDigits_spec (n : ℕ) :
    natDigits n ≠ [] ∧ (∀ c ∈ natDigits n, c.isDigit = true) ∧
      natOfDigits (natDigits n) = n :=
  natDigitsAux_spec (n + 1) n (n_lt_ten_pow n) (by omega)

theorem natDigitsAux_len_le : ∀ (fuel n : ℕ), (natDigitsAux fuel n).length ≤ fuel := by
  intro fuel
  induction fuel with
  | zero => intro n; simp [natDigitsAux]
  | succ f ih =>
      intro n
      by_cases hn : n < 10
      · simp [natDigitsAux, hn]
      · simp only [natDigitsAux, if_neg hn, List.length_append, List.length_singleton]
        have := ih (n / 10)
        omega

theorem natDigitsAux_irrel : ∀ (f g n : ℕ), n < 10 ^ f → n < 10 ^ g → 1 ≤ f → 1 ≤ g →
    natDigitsAux f n = natDigitsAux g n := by
  intro f
  induction f with
  | zero => intro g n _ _ h1; omega
  | succ f ih =>
      intro g n hf hg _ hg1
      obtain ⟨g', rfl⟩ : ∃ g', g = g' + 1 := ⟨g - 1, by omega⟩
      by_cases hn : n < 10
      · simp [natDigitsAux, hn]
      · simp only [natDigitsAux, if_neg hn]
        have hf1 : 1 ≤ f := by
          rcases Nat.eq_zero_or_pos f with rfl | hpos
          · simp at hf; omega
          · exact hpos
        have hg1' : 1 ≤ g' := by
          rcases Nat.eq_zero_or_pos g' with rfl | hpos
          · simp at hg; omega
          · exact hpos
        rw [ih g' (n / 10) (by rw [pow_succ] at hf; omega) (by rw [pow_succ] at hg; omega)
          hf1 hg1']

theorem natDigits_length_le {n k : ℕ} (h : n < 10 ^ k) (hk : 1 ≤ k) :
    (natDigits n).length ≤ k := by
  rw [natDigits, natDigitsAux_irrel (n + 1) k n (n_lt_ten_pow n) h (by omega) hk]
  exact natDigitsAux_len_le k n

theorem natOfDigits_replicate_zero (j : ℕ) :
    natOfDigits (List.replicate j '0') = 0 := by
  induction j with
  | zero => rfl
  | succ j ih =>
      rw [List.replicate_succ, show List.replicate j '0' = List.replicate j '0' ++ [] by simp]
      unfold natOfDigits at ih ⊢
      simp [ih]

theorem natOfDigits_padZeros (k : ℕ) (l : List Char) :
    natOfDigits (padZeros k l) = natOfDigits l := by
  unfold padZeros
  rw [natOfDigits_append, natOfDigits_replicate_zero]
  simp

theorem padZeros_all_digits {k : ℕ} {l : List Char} (h : ∀ c ∈ l, c.isDigit = true) :
    ∀ c ∈ padZeros k l, c.isDigit = true := by
  intro c hc
  rcases List.mem_append.mp hc with hc | hc
  · rw [List.eq_of_mem_replicate hc]
    decide
  · exact h c hc

theorem padZeros_length {k : ℕ} {l : List Char} (h : l.length ≤ k) :
    (padZeros k l).length = k := by
  unfold padZeros
  simp
  omega

/-! ## C8: JSON string escaping round trip -/

theorem hexVal_hexDig {n : ℕ} (h : n < 16) : hexVal (hexDig n) = some n := by
  interval_cases n <;> decide

theorem parseJStr_escChar (c : Char) (l : List Char) :
    parseJStr (escChar c ++ l) = (parseJStr l).map (fun p => (c :: p.1, p.2)) := by
  by_cases h1 : c = '"'
  · subst h1
    show parseJStr ('\\' :: '"' :: l) = _
    conv_lhs => rw [parseJStr.eq_def]
    simp
  by_cases h2 : c = '\\'
  · subst h2
    show parseJStr ('\\' :: '\\' :: l) = _
    conv_lhs => rw [parseJStr.eq_def]
    simp
  by_cases h3 : c = '\n'
  · subst h3
    show parseJStr ('\\' :: 'n' :: l) = _
    conv_lhs => rw [parseJStr.eq_def]
    simp
  by_cases h4 : c = '\t'
  · subst h4
    show parseJStr ('\\' :: 't' :: l) = _
    conv_lhs => rw [parseJStr.eq_def]
    simp
  by_cases h5 : c = '\r'
  · subst h5
    show parseJStr ('\\' :: 'r' :: l) = _
    conv_lhs => rw [parseJStr.eq_def]
    simp
  by_cases h6 : c = '\x08'
  · subst h6
    show parseJStr ('\\' :: 'b' :: l) = _
    conv_lhs => rw [parseJStr.eq_def]
    simp
  by_cases h7 : c = '\x0c'
  · subst h7
    show parseJStr ('\\' :: 'f' :: l) = _
    conv_lhs => rw [parseJStr.eq_def]
    simp
  by_cases h8 : c.toNat < 32
  · have hesc : escChar c =
        ['\\', 'u', '0', '0', hexDig (c.toNat / 16), hexDig (c.toNat % 16)] := by
      simp [escChar, h1, h2, h3, h4, h5, h6, h7, h8]
    have hz : hexVal '0' = some 0 := by decide
    have hhi : hexVal (hexDig (c.toNat / 16)) = some (c.toNat / 16) :=
      hexVal_hexDig (by omega)
    have hlo : hexVal (hexDig (c.toNat % 16)) = some (c.toNat % 16) :=
      hexVal_hexDig (by omega)
    have hfin : Char.ofNat (c.toNat / 16 * 16 + c.toNat % 16) = c := by
      rw [show c.toNat / 16 * 16 + c.toNat % 16 = c.toNat by omega, Char.ofNat_toNat]
    rw [hesc]
    show parseJStr ('\\' :: 'u' :: '0' :: '0' ::
      hexDig (c.toNat / 16) :: hexDig (c.toNat % 16) :: l) = _
    conv_lhs => rw [parseJStr.eq_def]
    simp [hz, hhi, hlo, hfin]
  · have hesc : escChar c = [c] := by
      simp [escChar, h1, h2, h3, h4, h5, h6, h7, h8]
    rw [hesc]
    show parseJStr (c :: l) = _
    conv_lhs => rw [parseJStr.eq_def]
    simp [h1, h2]

theorem parseJStr_escString (s : List Char) (l : List Char) :
    parseJStr (escString s ++ '"' :: l) = some (s, l) := by
  induction s with
  | nil =>
      show parseJStr ('"' :: l) = some ([], l)
      conv_lhs => rw [parseJStr.eq_def]
      simp
  | cons c t ih =>
      have hstep : escString (c :: t) = escChar c ++ escString t := rfl
      rw [hstep, List.append_assoc, parseJStr_escChar, ih]
      rfl

/-! ## C8: decimal rationals -/

theorem dvd_ten_pow_self {d k : ℕ} (hd : d ≠ 0) (h : d ∣ 10 ^ k) : d ∣ 10 ^ d := by
  rcases Nat.eq_zero_or_pos k with rfl | hk
  · rw [pow_zero, Nat.dvd_one] at h
    subst h
    exact one_dvd _
  · have h10 : (10 : ℕ) ^ d ≠ 0 := by positivity
    rw [← Nat.factorization_le_iff_dvd hd h10]
    intro p
    by_cases hp : p.Prime
    · have hdp := (Nat.factorization_le_iff_dvd hd (by positivity : (10 : ℕ) ^ k ≠ 0)).mpr h p
      rw [Nat.factorization_pow] at hdp ⊢
      simp only [Finsupp.smul_apply, smul_eq_mul] at hdp ⊢
      by_cases hzero : Nat.factorization 10 p = 0
      · rw [hzero] at hdp ⊢
        omega
      · have hlt : d.factorization p < d := Nat.factorization_lt p hd
        have h1 : 1 ≤ Nat.factorization 10 p := by omega
        calc d.factorization p ≤ d * 1 := by omega
          _ ≤ d * Nat.factorization 10 p := Nat.mul_le_mul_left d h1
    · simp [Nat.factorization_eq_zero_of_non_prime _ hp]

theorem den_dvd_pow_of_div (n k : ℕ) :
    (((n : ℚ) / (10 : ℚ) ^ k).den : ℕ) ∣ 10 ^ k := by
  have h := Rat.den_dvd (n : ℤ) ((10 : ℤ) ^ k)
  rw [Rat.divInt_eq_div] at h
  have hcast : (((10 : ℤ) ^ k : ℤ) : ℚ) = (10 : ℚ) ^ k := by push_cast; ring
  have hn : (((n : ℤ) : ℚ)) = (n : ℚ) := by push_cast; ring
  rw [hcast, hn] at h
  have h4 : ((10 : ℤ)) ^ k = ((10 ^ k : ℕ) : ℤ) := by push_cast; ring
  rw [h4] at h
  exact_mod_cast h

theorem decimalOfChars_wf {l : List Char} {q : ℚ} (h : decimalOfChars l = some q) :
    wfQ q := by
  simp only [decimalOfChars] at h
  split at h
  · split at h
    · exact absurd h (by simp)
    · have hq : q = ((natOfDigits (l.takeWhile Char.isDigit) : ℕ) : ℚ) :=
        (Option.some.inj h).symm
      subst hq
      constructor
      · positivity
      · rw [Rat.den_natCast]
        exact one_dvd _
  · split at h
    · rename_i p fr heq hcond
      have hq : q = ((natOfDigits (l.takeWhile Char.isDigit) * 10 ^ fr.length +
          natOfDigits fr : ℕ) : ℚ) / ((10 : ℚ) ^ fr.length) := (Option.some.inj h).symm
      subst hq
      constructor
      · positivity
      · exact dvd_ten_pow_self (Rat.den_nz _) (den_dvd_pow_of_div _ _)
    · exact absurd h (by simp)

theorem den_one_of_dvd {q : ℚ} (k : ℕ) (h : (q.den : ℕ) ∣ 10 ^ k) :
    (q * (10 : ℚ) ^ k).den = 1 := by
  obtain ⟨m, hm⟩ := h
  have hden : ((q.den : ℚ)) ≠ 0 := by
    exact_mod_cast Rat.den_nz q
  have hval : q * (10 : ℚ) ^ k = ((q.num * m : ℤ) : ℚ) := by
    conv_lhs => rw [← Rat.num_div_den q]
    have h10 : ((10 : ℚ)) ^ k = ((10 ^ k : ℕ) : ℚ) := by push_cast; ring
    rw [h10, hm]
    push_cast
    field_simp
    ring
  rw [hval]
  exact Rat.den_intCast _

theorem cast_num_of_den_one {x : ℚ} (h : x.den = 1) : ((x.num : ℚ)) = x := by
  conv_rhs => rw [← Rat.num_div_den x]
  rw [h]
  simp

theorem decExp_dvd {q : ℚ} (h : (q.den : ℕ) ∣ 10 ^ q.den) :
    (q.den : ℕ) ∣ 10 ^ decExp q := by
  unfold decExp
  cases hf : (List.range (q.den + 1)).find? (fun k => decide (q.den ∣ 10 ^ k)) with
  | some k =>
      have := List.find?_some hf
      simpa using this
  | none =>
      exfalso
      have := List.find?_eq_none.mp hf q.den (by simp)
      simp at this
      exact this h

/-! ## C8: number printing round trips -/

theorem takeWhile_append_all {p : Char → Bool} (a : List Char)
    (h : ∀ x ∈ a, p x = true) (l : List Char) :
    (a ++ l).takeWhile p = a ++ l.takeWhile p := by
  induction a with
  | nil => simp
  | cons c t ih =>
      simp [List.takeWhile_cons, h c (List.mem_cons_self c t),
        ih (fun x hx => h x (List.mem_cons_of_mem c hx))]

theorem takeWhile_head_false {p : Char → Bool} {l : List Char}
    (h : ∀ c, l.head? = some c → p c = false) : l.takeWhile p = [] := by
  cases l with
  | nil => rfl
  | cons c t => simp [List.takeWhile_cons, h c rfl]

theorem qRepr_def (q : ℚ) :
    qRepr q =
      if decExp q = 0 then
        natDigits ((q * (10 : ℚ) ^ decExp q).num.toNat) ++ ['.', '0']
      else
        natDigits ((q * (10 : ℚ) ^ decExp q).num.toNat / 10 ^ decExp q) ++
          '.' :: padZeros (decExp q)
            (natDigits ((q * (10 : ℚ) ^ decExp q).num.toNat % 10 ^ decExp q)) := by
  simp only [qRepr]

theorem head_ne_of_digits {D : List Char} (hne : D ≠ [])
    (hdig : ∀ c ∈ D, c.isDigit = true) (X : List Char) :
    ((D ++ X).head? == some '-') = false := by
  cases D with
  | nil => exact absurd rfl hne
  | cons c0 t0 =>
      have hc0 := hdig c0 (List.mem_cons_self c0 t0)
      simp only [List.cons_append, List.head?_cons]
      have : ¬ c0 = '-' := isDigit_ne hc0 '-' (by decide)
      simp [this]

theorem parseJNum_natDigits (n : ℕ) (l : List Char)
    (hl : ∀ c, l.head? = some c → c.isDigit = false ∧ ¬ c = '.') :
    parseJNum (natDigits n ++ l) = some (JVal.jint (n : ℤ), l) := by
  obtain ⟨hne, hdig, hval⟩ := natDigits_spec n
  have hsgn := head_ne_of_digits hne hdig l
  have hds : (natDigits n ++ l).takeWhile Char.isDigit = natDigits n := by
    rw [takeWhile_append_all _ hdig, takeWhile_head_false (fun c hc => (hl c hc).1)]
    simp
  have hdrop : (natDigits n ++ l).drop (natDigits n).length = l := List.drop_left _ _
  have hemp : (natDigits n).isEmpty = false := by
    cases hD : natDigits n with
    | nil => exact absurd hD hne
    | cons a b => rfl
  simp only [parseJNum, hsgn, Bool.false_eq_true, if_false, hds, hemp, hdrop]
  cases l with
  | nil => simp [hval]
  | cons c t =>
      have hc := hl c rfl
      simp [hc.2, hval]

theorem parseJNum_digits_frac (D P l : List Char) (hne : D ≠ [])
    (hdigD : ∀ c ∈ D, c.isDigit = true) (hP : P ≠ [])
    (hdigP : ∀ c ∈ P, c.isDigit = true)
    (hl : ∀ c, l.head? = some c → c.isDigit = false ∧ ¬ c = '.') :
    parseJNum (D ++ '.' :: (P ++ l)) =
      some (JVal.num (((natOfDigits D * 10 ^ P.length + natOfDigits P : ℕ) : ℚ) /
        ((10 : ℚ) ^ P.length)), l) := by
  have hsgn := head_ne_of_digits hne hdigD ('.' :: (P ++ l))
  have hds : (D ++ '.' :: (P ++ l)).takeWhile Char.isDigit = D :=
    takeWhile_append_done D hdigD '.' (by decide) (P ++ l)
  have hdrop : (D ++ '.' :: (P ++ l)).drop D.length = '.' :: (P ++ l) :=
    List.drop_left _ _
  have hemp : D.isEmpty = false := by
    cases hD : D with
    | nil => exact absurd hD hne
    | cons a b => rfl
  have hfr : (P ++ l).takeWhile Char.isDigit = P := by
    rw [takeWhile_append_all P hdigP, takeWhile_head_false (fun c hc => (hl c hc).1)]
    simp
  have hfremp : P.isEmpty = false := by
    cases hD : P with
    | nil => exact absurd hD hP
    | cons a b => rfl
  have hfrdrop : (P ++ l).drop P.length = l := List.drop_left _ _
  simp only [parseJNum, hsgn, Bool.false_eq_true, if_false, hds, hemp, hdrop]
  simp [hfr, hfremp, hfrdrop]

theorem parseJNum_qRepr {q : ℚ} (hw : wfQ q) (l : List Char)
    (hl : ∀ c, l.head? = some c → c.isDigit = false ∧ ¬ c = '.') :
    parseJNum (qRepr q ++ l) = some (JVal.num q, l) := by
  obtain ⟨hq0, hqd⟩ := hw
  have hdvd : (q.den : ℕ) ∣ 10 ^ decExp q := decExp_dvd hqd
  have hden1 : (q * (10 : ℚ) ^ decExp q).den = 1 := den_one_of_dvd _ hdvd
  have hnum0 : 0 ≤ (q * (10 : ℚ) ^ decExp q).num :=
    Rat.num_nonneg.mpr (by positivity)
  have hmq : (((q * (10 : ℚ) ^ decExp q).num.toNat : ℚ)) = q * (10 : ℚ) ^ decExp q := by
    rw [show (((q * (10 : ℚ) ^ decExp q).num.toNat : ℚ)) =
        (((q * (10 : ℚ) ^ decExp q).num.toNat : ℤ) : ℚ) by push_cast; ring,
      Int.toNat_of_nonneg hnum0]
    exact cast_num_of_den_one hden1
  rw [qRepr_def]
  by_cases hk0 : decExp q = 0
  · rw [if_pos hk0]
    rw [hk0, pow_zero, mul_one] at hmq ⊢
    obtain ⟨hne, hdig, hval⟩ := natDigits_spec (q.num.toNat)
    have hassoc : (natDigits q.num.toNat ++ ['.', '0']) ++ l =
        natDigits q.num.toNat ++ '.' :: (['0'] ++ l) := by simp
    rw [hassoc, parseJNum_digits_frac _ _ _ hne hdig (by simp) (by decide) hl]
    have hv : ((natOfDigits (natDigits q.num.toNat) * 10 ^ (['0'] : List Char).length +
        natOfDigits ['0'] : ℕ) : ℚ) / ((10 : ℚ) ^ (['0'] : List Char).length) = q := by
      rw [hval]
      have h0 : natOfDigits ['0'] = 0 := rfl
      rw [h0]
      rw [div_eq_iff (by norm_num : ((10 : ℚ) ^ (['0'] : List Char).length) ≠ 0)]
      push_cast
      rw [hmq]
      ring
    rw [hv]
  · rw [if_neg hk0]
    have hk1 : 1 ≤ decExp q := by omega
    generalize hMg : (q * (10 : ℚ) ^ decExp q).num.toNat = M at hmq ⊢
    obtain ⟨hne1, hdig1, hval1⟩ := natDigits_spec (M / 10 ^ decExp q)
    obtain ⟨hne2, hdig2, hval2⟩ := natDigits_spec (M % 10 ^ decExp q)
    have hlen2 : (natDigits (M % 10 ^ decExp q)).length ≤ decExp q :=
      natDigits_length_le (Nat.mod_lt _ (by positivity)) hk1
    have hpadlen := padZeros_length hlen2
    have hpaddig := padZeros_all_digits (k := decExp q) hdig2
    have hpadne : padZeros (decExp q) (natDigits (M % 10 ^ decExp q)) ≠ [] := by
      intro hcontra
      have hlen := congrArg List.length hcontra
      rw [hpadlen] at hlen
      simp at hlen
      omega
    have hassoc : (natDigits (M / 10 ^ decExp q) ++
        '.' :: padZeros (decExp q) (natDigits (M % 10 ^ decExp q))) ++ l =
        natDigits (M / 10 ^ decExp q) ++
        '.' :: (padZeros (decExp q) (natDigits (M % 10 ^ decExp q)) ++ l) := by
      simp
    rw [hassoc, parseJNum_digits_frac _ _ _ hne1 hdig1 hpadne hpaddig hl]
    have hv : ((natOfDigits (natDigits (M / 10 ^ decExp q)) *
        10 ^ (padZeros (decExp q) (natDigits (M % 10 ^ decExp q))).length +
        natOfDigits (padZeros (decExp q) (natDigits (M % 10 ^ decExp q))) : ℕ) : ℚ) /
        ((10 : ℚ) ^ (padZeros (decExp q) (natDigits (M % 10 ^ decExp q))).length) = q := by
      rw [hval1, natOfDigits_padZeros, hval2, hpadlen]
      rw [div_eq_iff (by positivity : ((10 : ℚ) ^ decExp q) ≠ 0)]
      rw [← hmq]
      exact_mod_cast congrArg (fun n : ℕ => ((n : ℚ))) (Nat.div_add_mod' M (10 ^ decExp q))
    rw [hv]

/-! ## C8: value dumps parse back -/

theorem qRepr_head (q : ℚ) : ∃ c0 cs, qRepr q = c0 :: cs ∧ c0.isDigit = true := by
  rw [qRepr_def]
  by_cases hk : decExp q = 0
  · rw [if_pos hk]
    obtain ⟨hne, hdig, _⟩ := natDigits_spec ((q * (10 : ℚ) ^ decExp q).num.toNat)
    cases hD : natDigits ((q * (10 : ℚ) ^ decExp q).num.toNat) with
    | nil => exact absurd hD hne
    | cons c0 cs0 =>
        refine ⟨c0, cs0 ++ ['.', '0'], by simp, ?_⟩
        exact hdig c0 (by rw [hD]; exact List.mem_cons_self _ _)
  · rw [if_neg hk]
    obtain ⟨hne, hdig, _⟩ :=
      natDigits_spec ((q * (10 : ℚ) ^ decExp q).num.toNat / 10 ^ decExp q)
    cases hD : natDigits ((q * (10 : ℚ) ^ decExp q).num.toNat / 10 ^ decExp q) with
    | nil => exact absurd hD hne
    | cons c0 cs0 =>
        refine ⟨c0, cs0 ++ '.' :: padZeros (decExp q)
          (natDigits ((q * (10 : ℚ) ^ decExp q).num.toNat % 10 ^ decExp q)),
          by simp, ?_⟩
        exact hdig c0 (by rw [hD]; exact List.mem_cons_self _ _)

theorem parseJVal_dump {v : JVal} (hw : wfVal v) (l : List Char)
    (hl : l.head? = some ',' ∨ l.head? = some '\x7d') :
    parseJVal (jvalDump v ++ l) = some (v, l) := by
  have hl' : ∀ c, l.head? = some c → c.isDigit = false ∧ ¬ c = '.' := by
    intro c hc
    rcases hl with h | h <;> rw [h] at hc <;> rw [← Option.some.inj hc] <;>
      exact ⟨by decide, by decide⟩
  cases v with
  | str s =>
      have hassoc : jvalDump (JVal.str s) ++ l = '"' :: (escString s.data ++ '"' :: l) := by
        simp [jvalDump, jstrDump]
      rw [hassoc]
      simp [parseJVal, parseJStr_escString]
  | num q =>
      have hwq : wfQ q := hw
      obtain ⟨c0, cs, hq, hc0⟩ := qRepr_head q
      have hassoc : jvalDump (JVal.num q) ++ l = c0 :: (cs ++ l) := by
        simp [jvalDump, hq]
      rw [hassoc]
      have hnum := parseJNum_qRepr hwq l hl'
      rw [hq] at hnum
      simp only [List.cons_append] at hnum
      simp [parseJVal, isDigit_ne hc0 '"' (by decide), startsWithL,
        isDigit_ne hc0 'n' (by decide), hnum]
  | jint z =>
      have hz : 0 ≤ z := hw
      have hdump : jvalDump (JVal.jint z) = natDigits z.toNat := by
        simp [jvalDump, not_lt.mpr hz]
      obtain ⟨hne, hdig, _⟩ := natDigits_spec z.toNat
      cases hD : natDigits z.toNat with
      | nil => exact absurd hD hne
      | cons c0 cs0 =>
          have hc0 : c0.isDigit = true := hdig c0 (by rw [hD]; exact List.mem_cons_self _ _)
          have hassoc : jvalDump (JVal.jint z) ++ l = c0 :: (cs0 ++ l) := by
            rw [hdump, hD]
            simp
          rw [hassoc]
          have hnum := parseJNum_natDigits z.toNat l hl'
          rw [hD] at hnum
          simp only [List.cons_append] at hnum
          rw [Int.toNat_of_nonneg hz] at hnum
          simp [parseJVal, isDigit_ne hc0 '"' (by decide), startsWithL,
            isDigit_ne hc0 'n' (by decide), hnum]
  | null =>
      have hassoc : jvalDump JVal.null ++ l = 'n' :: 'u' :: 'l' :: 'l' :: l := rfl
      rw [hassoc]
      simp [parseJVal, startsWithL]

/-! ## C8: entry lists parse back -/

theorem jvalDump_head_not_ws (v : JVal) (X : List Char) :
    skipWsJ (jvalDump v ++ X) = jvalDump v ++ X := by
  cases v with
  | str s => simp [jvalDump, jstrDump, skipWsJ]
  | num q =>
      obtain ⟨c0, cs, hq, hc0⟩ := qRepr_head q
      have h1 := isDigit_ne hc0 ' ' (by decide)
      have h2 := isDigit_ne hc0 '\t' (by decide)
      have h3 := isDigit_ne hc0 '\n' (by decide)
      have h4 := isDigit_ne hc0 '\r' (by decide)
      simp [jvalDump, hq, skipWsJ, List.dropWhile_cons, h1, h2, h3, h4]
  | jint z =>
      by_cases hz : z < 0
      · simp [jvalDump, hz, skipWsJ]
      · obtain ⟨hne, hdig, _⟩ := natDigits_spec z.toNat
        cases hD : natDigits z.toNat with
        | nil => exact absurd hD hne
        | cons c0 cs0 =>
            have hc0 : c0.isDigit = true :=
              hdig c0 (by rw [hD]; exact List.mem_cons_self _ _)
            have h1 := isDigit_ne hc0 ' ' (by decide)
            have h2 := isDigit_ne hc0 '\t' (by decide)
            have h3 := isDigit_ne hc0 '\n' (by decide)
            have h4 := isDigit_ne hc0 '\r' (by decide)
            simp [jvalDump, hz, hD, skipWsJ, List.dropWhile_cons, h1, h2, h3, h4]
  | null => simp [jvalDump, skipWsJ]

theorem parseEntriesGo_entry (f : ℕ) (k : String) (v : JVal) (hw : wfVal v)
    (c3 : Char) (r4 : List Char) (hc3 : c3 = ',' ∨ c3 = '\x7d') :
    parseEntriesGo (f + 1) (jstrDump k ++ ':' :: ' ' :: (jvalDump v ++ c3 :: r4)) =
      if c3 = ',' then (parseEntriesGo f r4).map (fun p => ((k, v) :: p.1, p.2))
      else some ([(k, v)], c3 :: r4) := by
  have hshape : jstrDump k ++ ':' :: ' ' :: (jvalDump v ++ c3 :: r4) =
      '"' :: (escString k.data ++ '"' :: (':' :: ' ' :: (jvalDump v ++ c3 :: r4))) := by
    simp [jstrDump]
  rw [hshape]
  have hv := parseJVal_dump hw (c3 :: r4)
    (by rcases hc3 with rfl | rfl; exact Or.inl rfl; exact Or.inr rfl)
  have hdw : List.dropWhile (fun c => c = ' ' || c = '\t' || c = '\n' || c = '\r')
      (jvalDump v ++ c3 :: r4) = jvalDump v ++ c3 :: r4 := jvalDump_head_not_ws v (c3 :: r4)
  have hskip3 : List.dropWhile (fun c => c = ' ' || c = '\t' || c = '\n' || c = '\r')
      (c3 :: r4) = c3 :: r4 := by
    rcases hc3 with rfl | rfl <;> simp [skipWsJ]
  simp only [parseEntriesGo, skipWsJ, List.dropWhile]
  simp only [show ('"' = ' ' || '"' = '\t' || '"' = '\n' || '"' = '\r') = false by decide,
    Bool.false_eq_true, if_false]
  simp [parseJStr_escString, hdw, hv, hskip3]

theorem parseEntriesGo_cons_ws (f : ℕ) (X : List Char) :
    parseEntriesGo (f + 1) (' ' :: X) = parseEntriesGo (f + 1) X := by
  have h : skipWsJ (' ' :: X) = skipWsJ X := by simp [skipWsJ]
  simp only [parseEntriesGo, h]

theorem parseEntriesGo_joinEntries (m : Meta) :
    ∀ (fuel : ℕ) (l : List Char), wfDict m → m ≠ [] → m.length ≤ fuel →
      l.head? = some '\x7d' →
      parseEntriesGo fuel (joinEntries m ++ l) = some (m, l) := by
  induction m with
  | nil => exact fun fuel l _ hne _ _ => absurd rfl hne
  | cons e rest ih =>
      obtain ⟨k, v⟩ := e
      intro fuel l hw hne hlen hl
      obtain ⟨f, rfl⟩ : ∃ f, fuel = f + 1 := by
        refine ⟨fuel - 1, ?_⟩
        simp only [List.length_cons] at hlen
        omega
      have hwv : wfVal v := hw (k, v) (List.mem_cons_self _ _)
      obtain ⟨c3, r4, rfl⟩ : ∃ c3 r4, l = c3 :: r4 := by
        cases l with
        | nil => simp at hl
        | cons a b => exact ⟨a, b, rfl⟩
      have hc3 : c3 = '\x7d' := by simpa using hl
      subst hc3
      cases rest with
      | nil =>
          have hshape : joinEntries [(k, v)] ++ '\x7d' :: r4 =
              jstrDump k ++ ':' :: ' ' :: (jvalDump v ++ '\x7d' :: r4) := by
            simp [joinEntries]
          rw [hshape, parseEntriesGo_entry f k v hwv _ _ (Or.inr rfl)]
          simp
      | cons e2 rest2 =>
          have hshape : joinEntries ((k, v) :: e2 :: rest2) ++ '\x7d' :: r4 =
              jstrDump k ++ ':' :: ' ' ::
                (jvalDump v ++ ',' :: (' ' :: (joinEntries (e2 :: rest2) ++ '\x7d' :: r4))) := by
            simp [joinEntries]
          rw [hshape, parseEntriesGo_entry f k v hwv _ _ (Or.inl rfl), if_pos rfl]
          obtain ⟨g, rfl⟩ : ∃ g, f = g + 1 := by
            refine ⟨f - 1, ?_⟩
            simp only [List.length_cons] at hlen
            omega
          rw [parseEntriesGo_cons_ws,
            ih (g + 1) ('\x7d' :: r4) (fun p hp => hw p (List.mem_cons_of_mem _ hp))
              (by simp) (by simp only [List.length_cons] at hlen ⊢; omega) (by simp)]
          rfl

theorem joinEntries_length (m : Meta) : m.length ≤ (joinEntries m).length := by
  induction m with
  | nil => simp [joinEntries]
  | cons e rest ih =>
      obtain ⟨k, v⟩ := e
      cases rest with
      | nil =>
          simp only [joinEntries, List.length_cons, List.length_append, List.length_nil]
          omega
      | cons e2 rest2 =>
          obtain ⟨k2, v2⟩ := e2
          simp only [joinEntries, List.length_cons, List.length_append] at ih ⊢
          omega

theorem jparse_jdumps {m : Meta} (hw : wfDict m) : jparse (jdumps m) = some m := by
  cases m with
  | nil => rfl
  | cons e rest =>
      obtain ⟨k, v⟩ := e
      obtain ⟨J, hJ⟩ : ∃ J, joinEntries ((k, v) :: rest) = '"' :: J := by
        cases rest with
        | nil =>
            exact ⟨escString k.data ++ '"' :: ':' :: ' ' :: jvalDump v,
              by simp [joinEntries, jstrDump]⟩
        | cons e2 rest2 =>
            exact ⟨escString k.data ++ '"' :: ':' :: ' ' ::
              (jvalDump v ++ ',' :: ' ' :: joinEntries (e2 :: rest2)),
              by simp [joinEntries, jstrDump]⟩
      have hT : joinEntries ((k, v) :: rest) ++ ['\x7d'] = '"' :: (J ++ ['\x7d']) := by
        rw [hJ]
        simp
      have hmain := parseEntriesGo_joinEntries ((k, v) :: rest)
        (('"' :: (J ++ ['\x7d'])).length + 1) ['\x7d'] hw (by simp)
        (by
          have h1 : ((k, v) :: rest).length ≤ (joinEntries ((k, v) :: rest)).length :=
            joinEntries_length _
          have h2 : (joinEntries ((k, v) :: rest)).length = J.length + 1 := by
            rw [hJ]
            simp
          simp only [List.length_append, List.length_cons, List.length_nil] at h1 h2 ⊢
          omega)
        (by simp)
      rw [hT] at hmain
      rw [show jdumps ((k, v) :: rest) = ⟨'\x7b' :: '"' :: (J ++ ['\x7d'])⟩ from by
        simp [jdumps, hJ]]
      simp only [List.length_cons, List.length_append, List.length_singleton,
        List.length_nil, Nat.zero_add] at hmain
      simp [jparse, skipWsJ, hmain]

/-! ## C8: the extractors only produce well-formed metadata values -/

theorem wfDict_nil : wfDict [] := fun p hp => absurd hp (List.not_mem_nil p)

theorem wfDict_singleton {k : String} {v : JVal} (hv : wfVal v) : wfDict [(k, v)] := by
  intro p hp
  rw [List.mem_singleton] at hp
  subst hp
  exact hv

theorem wfDict_append {a b : Meta} (ha : wfDict a) (hb : wfDict b) : wfDict (a ++ b) := by
  intro p hp
  rcases List.mem_append.mp hp with h | h
  · exact ha p h
  · exact hb p h

theorem wfVal_jvalOfOptFloat (l : List Char) :
    wfVal (jvalOfOptFloat (decimalOfChars l)) := by
  cases ho : decimalOfChars l with
  | none => trivial
  | some q => exact decimalOfChars_wf ho

theorem wf_strClause (key : String) (re : RExp) (text : List Char) :
    wfDict (strClause key re text) := by
  unfold strClause
  split
  · split
    · exact wfDict_singleton trivial
    · exact wfDict_nil
  · exact wfDict_nil

theorem wf_numClause (key : String) (re : RExp) (text : List Char) :
    wfDict (numClause key re text) := by
  unfold numClause
  split
  · split
    · exact wfDict_singleton (wfVal_jvalOfOptFloat _)
    · exact wfDict_nil
  · exact wfDict_nil

theorem wf_paymentFromCaps (caps : Caps) : wfDict (paymentFromCaps caps) := by
  unfold paymentFromCaps
  split
  · exact wfDict_singleton trivial
  · exact wfDict_nil

theorem wf_vocabPaymentClause (re : RExp) (text : List Char) :
    wfDict (vocabPaymentClause re text) := by
  unfold vocabPaymentClause
  split
  · exact wf_paymentFromCaps _
  · exact wfDict_nil

theorem wf_foodItemsClause (text : List Char) (n : ℕ) :
    wfDict (foodItemsClause text n) := by
  simp only [foodItemsClause]
  split
  · exact wfDict_nil
  · exact wfDict_singleton trivial

theorem wf_extract_food (body : String) : wfDict (extract_food_metadata body) := by
  unfold extract_food_metadata
  exact wfDict_append (wfDict_append (wfDict_append (wfDict_append (wfDict_append
    (wfDict_append (wf_strClause _ _ _) (wf_strClause _ _ _)) (wf_foodItemsClause _ _))
    (wf_numClause _ _ _)) (wf_numClause _ _ _)) (wf_numClause _ _ _))
    (wf_vocabPaymentClause _ _)

theorem wf_transportLocationsClause (text : List Char) (n : ℕ) :
    wfDict (transportLocationsClause text n) := by
  unfold transportLocationsClause
  split
  · refine wfDict_append (wfDict_append (wfDict_append ?_ ?_) ?_) ?_
    all_goals split
    all_goals first
      | exact wfDict_singleton trivial
      | exact wfDict_nil
  · exact wfDict_nil

theorem wf_transportPaymentClause (text : List Char) (n : ℕ) :
    wfDict (transportPaymentClause text n) := by
  unfold transportPaymentClause
  split
  · split
    · exact wfDict_singleton trivial
    · exact wfDict_nil
  · exact wf_vocabPaymentClause _ _

theorem wf_transportDistanceClause {text : List Char} {n : ℕ} {md : Meta}
    (h : transportDistanceClause text n = .ok md) : wfDict md := by
  unfold transportDistanceClause at h
  split at h
  · split at h
    · split at h
      · rename_i d hd
        obtain rfl := Except.ok.inj h
        intro p hp
        rcases List.mem_cons.mp hp with rfl | hp2
        · exact decimalOfChars_wf hd
        · rcases List.mem_singleton.mp hp2 with rfl
          exact Int.natCast_nonneg _
      · exact absurd h (by simp)
    · obtain rfl := Except.ok.inj h
      exact wfDict_nil
  · obtain rfl := Except.ok.inj h
    exact wfDict_nil

theorem wf_transportClauses (text : List Char) (n : ℕ) {distPart : Meta}
    (hd : wfDict distPart) : wfDict (transportClauses text n distPart) := by
  unfold transportClauses
  exact wfDict_append (wfDict_append (wfDict_append (wfDict_append (wfDict_append
    (wfDict_append (wf_strClause _ _ _) hd) (wf_transportLocationsClause _ _))
    (wf_numClause _ _ _)) (wf_numClause _ _ _)) (wf_numClause _ _ _))
    (wf_transportPaymentClause _ _)

theorem wf_extract_transport {body : String} {md : Meta}
    (h : extract_transport_metadata body = .ok md) : wfDict md := by
  unfold extract_transport_metadata at h
  split at h
  · exact absurd h (by simp)
  · rename_i distPart hdist
    obtain rfl := Except.ok.inj h
    exact wf_transportClauses _ _ (wf_transportDistanceClause hdist)

theorem wf_extract_tip (body : String) : wfDict (extract_tip_metadata body) := by
  unfold extract_tip_metadata
  exact wfDict_append (wf_strClause _ _ _) (wf_vocabPaymentClause _ _)

theorem wf_extract_metadata {body st : String} {md : Meta}
    (h : extract_metadata body st = .ok md) : wfDict md := by
  unfold extract_metadata at h
  split_ifs at h
  · obtain rfl := Except.ok.inj h
    exact wf_extract_food body
  · exact wf_extract_transport h
  · obtain rfl := Except.ok.inj h
    exact wf_extract_tip body
  · obtain rfl := Except.ok.inj h
    exact wfDict_nil

/-- C8: Round-trip: for every message, assembling a record with
`parse_email_to_row` and then parsing its metadata field back from JSON
(`jparse`, a model of `json.loads`) yields exactly the metadata mapping that
`extract_metadata` produced, whenever that mapping is non-empty; when the
mapping is empty the metadata field is the empty string, not the
two-character string of an empty JSON object. -/
theorem C8_metadata_round_trip (parsedate : String → Option String) (uid : ℕ)
    (msg : EmailMessage) (row : Row) (md : Meta)
    (hr : parse_email_to_row parsedate uid msg = .ok row)
    (hm : extract_metadata (get_email_text msg)
      (detect_service_type (get_email_text msg)) = .ok md) :
    (md ≠ [] → jparse row.metadata = some md) ∧
    (md = [] → row.metadata = "" ∧ row.metadata ≠ "\x7b\x7d") := by
  unfold parse_email_to_row at hr
  split at hr
  · exact absurd hr (by simp)
  · rename_i metadata hmeta
    obtain rfl := Except.ok.inj hr
    rw [hmeta] at hm
    obtain rfl := Except.ok.inj hm
    constructor
    · intro hne
      have hwf := wf_extract_metadata hmeta
      simp only [mkRow]
      rw [if_neg (by simpa [List.isEmpty_iff] using hne)]
      exact jparse_jdumps hwf
    · intro he
      subst he
      exact ⟨by simp [mkRow], by simp [mkRow]⟩

theorem C8_witness :
    (([(("driver_name" : String), JVal.str "Bob")] : Meta) ≠ [] →
      jparse (Row.mk "7" "x" "GrabTip" "" "" ""
          "\x7b\"driver_name\": \"Bob\"\x7d").metadata =
        some [(("driver_name" : String), JVal.str "Bob")]) ∧
    (([(("driver_name" : String), JVal.str "Bob")] : Meta) = [] →
      (Row.mk "7" "x" "GrabTip" "" "" ""
          "\x7b\"driver_name\": \"Bob\"\x7d").metadata = "" ∧
      (Row.mk "7" "x" "GrabTip" "" "" ""
          "\x7b\"driver_name\": \"Bob\"\x7d").metadata ≠ "\x7b\x7d") :=
  C8_metadata_round_trip (fun _ => none) 7
    ⟨"x", .single ⟨"text/plain", some "Tips E-Receipt Driver: Bob"⟩⟩
    (Row.mk "7" "x" "GrabTip" "" "" "" "\x7b\"driver_name\": \"Bob\"\x7d")
    [(("driver_name" : String), JVal.str "Bob")] (by rfl) (by rfl)

end GrabReceipts













